import Mathlib

/-!
Verification development for the ldapChangeMonitor repository
(src/ldapChangeMonitor.py).

The program tails an openldap audit log with a persisted
(inode, byte-offset) cursor (class Pygtail), parses the drained lines
into change records (class mzLDIFRecordList, method parse), builds one
event per record (createLogRecord) and dispatches it (main, MozDefEvent).

Embedding conventions:
  * text (a line of the log, a file name, an attribute value) is a list
    of characters, abbreviated S; lines carry no trailing newline, and a
    byte position counts each line as its length plus one newline byte;
  * files are lists of lines; the filesystem is an association list of
    named files plus the contents of the offset side file;
  * each Python dictionary that acts as a record (the parser entry) is a
    structure of optional fields: a present key is a some field;
  * functions that can raise in Python return Option, none being the
    raised exception;
  * loops are encoded with explicit fuel that is always at least the
    number of lines that can still be consumed, since every iteration
    consumes at least one line.
-/

set_option maxRecDepth 8000

namespace Ldap

/-- Text as a list of characters. -/
abbrev S : Type := List Char

/-- Coerce a string literal into the character-list representation. -/
def str (s : String) : S := s.toList

/-- Map a text to lower case, modelling the Python method str.lower. -/
def lowerS (s : S) : S := s.map Char.toLower

/-- Whether needle occurs as a contiguous substring of the haystack,
modelling the Python test needle in hay. -/
def containsSub (needle : S) : S → Bool
  | [] => decide (List.take needle.length ([] : S) = needle)
  | c :: rest =>
      decide (List.take needle.length (c :: rest) = needle) ||
        containsSub needle rest

/-- Number of positions at which the needle occurs in the haystack. -/
def occCount (needle : S) : S → Nat
  | [] => if List.take needle.length ([] : S) = needle then 1 else 0
  | c :: rest =>
      (if List.take needle.length (c :: rest) = needle then 1 else 0) +
        occCount needle rest

/-- Drop leading whitespace, modelling the Python method str.lstrip. -/
def lstrip (s : S) : S := s.dropWhile Char.isWhitespace

/-- The record terminator marker looked for by parse and by main. -/
def endM : S := str "# end"

/-- Split a text at its first colon, returning the parts before and
after the colon, or none when there is no colon. -/
def splitColon : S → Option (S × S)
  | [] => none
  | c :: r =>
      if c = ':' then some ([], r)
      else
        match splitColon r with
        | none => none
        | some (a, b) => some (c :: a, b)

/-- Strip a case-insensitive literal from the front of a text. -/
def stripCI (p l : S) : Option S :=
  if p.length ≤ l.length ∧ lowerS (l.take p.length) = lowerS p then
    some (l.drop p.length)
  else none

/-- The operation keywords of the begin-comment regular expression
of mzLDIFRecordList.parse, in alternation order. -/
def beginKeywords : List S := [str "add", str "change", str "delete", str "modify"]

/-- Try the begin keywords in order against the front of a text. -/
def stripKeyword (l : S) : Option S :=
  match stripCI (str "add") l with
  | some r => some r
  | none =>
    match stripCI (str "change") l with
    | some r => some r
    | none =>
      match stripCI (str "delete") l with
      | some r => some r
      | none => stripCI (str "modify") l

/-- The begin-comment regular expression of parse:
a line matching hash, space, an operation keyword (case-insensitive),
space, one to one hundred digits, space, then the captured actor. -/
def beginMatch (l : S) : Option S :=
  match l with
  | c1 :: c2 :: rest =>
    if c1 = '#' ∧ c2 = ' ' then
      match stripKeyword rest with
      | none => none
      | some r1 =>
        match r1 with
        | ' ' :: r2 =>
          let ds := r2.takeWhile Char.isDigit
          if 1 ≤ ds.length ∧ ds.length ≤ 100 then
            match r2.drop ds.length with
            | ' ' :: actor => some actor
            | _ => none
          else none
        | _ => none
    else none
  | _ => none

/-!
The line-pair reader. Modelled from the spec: the external python-ldap
ldif library methods LDIFParser._unfoldLDIFLine and
LDIFParser._parseAttrTypeandValue are not part of this repository; the
spec specifies them at their boundary as a line-pair source with a
folding and comment-skipping contract (spec section 4.3 and 6). The
model unfolds continuation lines (a following physical line starting
with a space is appended without that space), skips comment lines
(unfolded lines starting with a hash), returns none-none on a blank or
colon-free unfolded line, and splits an attribute line at its first
colon; a value introduced by colon-less-than (an URL reference) yields
no value, and base64 decoding of double-colon values is not modelled
(the value is kept as written). The stream position is a pair of the
current line (none at end of file) and the list of lines not yet read.
-/

/-- Unfold one logical line: the accumulator is the stripped current
line; following physical lines starting with a space are appended
without their first character. Returns the unfolded line, the new
current line and the remaining lines. -/
def unfoldRest : List S → S → S × Option S × List S
  | [], acc => (acc, none, [])
  | l :: rs, acc =>
      if l.head? = some ' ' then unfoldRest rs (acc ++ l.drop 1)
      else (acc, some l, rs)

/-- Unfold starting from the current line of the stream. -/
def unfoldLDIF (cur : Option S) (rest : List S) : S × Option S × List S :=
  unfoldRest rest (cur.getD [])

/-- The lines of a stream position: the current line, when there is
one, followed by the lines not yet read. -/
def optCons : Option S → List S → List S
  | some l, r => l :: r
  | none, r => r

/-- Skip unfolded lines that are comments (first character a hash). -/
def skipComments : Nat → S → Option S → List S → S × Option S × List S
  | 0, u, cur, rest => (u, cur, rest)
  | fuel + 1, u, cur, rest =>
      if u.head? = some '#' then
        match unfoldLDIF cur rest with
        | (u2, c2, r2) => skipComments fuel u2 c2 r2
      else (u, cur, rest)

/-- One call of the line-pair reader: consume the current line (plus
any folded continuations and comment lines), and return the attribute
type and value together with the new stream position. -/
def parseAttrTypeAndValue (cur : S) (rest : List S) :
    (Option S × Option S) × Option S × List S :=
  match unfoldLDIF (some cur) rest with
  | (u0, c0, r0) =>
    match skipComments (r0.length + 2) u0 c0 r0 with
    | (u, c, r) =>
      if u = [] then ((none, none), c, r)
      else
        match splitColon u with
        | none => ((none, none), c, r)
        | some (t, after) =>
          match after with
          | '<' :: _ => ((some t, none), c, r)
          | _ => ((some t, some (lstrip (after.drop 1))), c, r)

/-!
The record parser: mzLDIFRecordList.parse
(src/ldapChangeMonitor.py lines 122-209).
-/

/-- The values of MOD_OP_STR in the ldif library: the per-attribute
operation kinds recognised as action lines. -/
def MODOPS : List S := [str "add", str "delete", str "replace"]

/-- The parser entry dictionary: each optional field models presence of
the corresponding key. -/
structure Entry where
  dn : Option S := none
  actor : Option S := none
  actions : Option (List S) := none
  changes : Option (List S) := none
  changetype : Option S := none
deriving DecidableEq, Repr

/-- Python test len(entry) greater than zero: some key is present. -/
def Entry.nonempty (e : Entry) : Bool :=
  e.dn.isSome || e.actor.isSome || e.actions.isSome ||
    e.changes.isSome || e.changetype.isSome

/-- Case-insensitive membership in the ignored attribute types,
modelling has_key on the dictionary of lowered names. -/
def ignoredMem (ig : List S) (t : S) : Bool :=
  decide (lowerS t ∈ ig.map lowerS)

/-- One iteration of the branch dispatch of parse on the pair returned
by the reader. Returns the new local dn, local changetype, action
variable and entry, or none for the TypeError raised when a change
value arrives while both the action variable and the local changetype
are unset (action plus colon with action None). -/
def parseBranch (ig : List S) (tv : Option S × Option S)
    (dnL ctL : Option S) (act : S) (entry : Entry) :
    Option (Option S × Option S × S × Entry) :=
  match tv with
  | (some t, v) =>
    if t = str "dn" then
      some (v, ctL, act, { entry with dn := v })
    else if t ∈ MODOPS then
      some (dnL, ctL, t,
        { entry with actions := some ((entry.actions.getD []) ++ [t, v.getD (str "None")]) })
    else if t = str "changetype" then
      some (dnL, v, act, { entry with changetype := v })
    else
      match v with
      | some w =>
        if ignoredMem ig t then some (dnL, ctL, act, entry)
        else
          match (if act = [] then ctL else some act) with
          | none => none
          | some act2 =>
            let entry2 :=
              if t = str "modifiersName" then { entry with actor := some w } else entry
            some (dnL, ctL, act2,
              { entry2 with changes := some ((entry2.changes.getD []) ++ [act2 ++ str ":" ++ t, w]) })
      | none => some (dnL, ctL, act, entry)
  | (none, _) => some (dnL, ctL, act, entry)

/-- The emission test of parse: the local dn is set, the entry has a
key, and the current line after the reader call contains the end
marker. -/
def emitTest (dnL : Option S) (entry : Entry) (cur : Option S) : Bool :=
  dnL.isSome && entry.nonempty &&
    (match cur with
     | some l => containsSub endM l
     | none => false)

/-- The while loop of parse. The accumulator collects the emitted
(dn, entry) pairs in reverse order; the result is none when the loop
raises a TypeError. On emission the local dn, the local changetype and
the entry are reset, and a missing actor defaults to unknown; the
action variable is left as it is, modelling the bare expression
statement action on the reset lines of the source. -/
def parseLoop (ig : List S) : Nat → Option S → List S → Option S → Option S → S →
    Entry → List (S × Entry) → Option (List (S × Entry))
  | 0, _, _, _, _, _, _, acc => some acc.reverse
  | _ + 1, none, _, _, _, _, _, acc => some acc.reverse
  | fuel + 1, some cur, rest, dnL, ctL, act, entry, acc =>
    let entry0 :=
      match beginMatch cur with
      | some a => { entry with actor := some a }
      | none => entry
    match parseAttrTypeAndValue cur rest with
    | (tv, cur2, rest2) =>
      match parseBranch ig tv dnL ctL act entry0 with
      | none => none
      | some (dn2, ct2, act2, entry2) =>
        if emitTest dn2 entry2 cur2 then
          match dn2 with
          | some d =>
            let entryF :=
              if entry2.actor = none then { entry2 with actor := some (str "unknown") }
              else entry2
            parseLoop ig fuel cur2 rest2 none none act2 {} ((d, entryF) :: acc)
          | none => parseLoop ig fuel cur2 rest2 dn2 ct2 act2 entry2 acc
        else parseLoop ig fuel cur2 rest2 dn2 ct2 act2 entry2 acc

/-- mzLDIFRecordList.parse over a list of raw lines: the initial
readline makes the first line current, and all_records collects the
emitted pairs. -/
def mzParse (lines : List S) (ig : List S) : Option (List (S × Entry)) :=
  parseLoop ig (lines.length + 1) lines.head? lines.tail none none [] {} []

/-!
Event construction: createLogRecord
(src/ldapChangeMonitor.py lines 212-244).
-/

/-- The Python pairing idiom zip(l, l drop one) sliced by twos:
consecutive elements grouped into pairs, a dangling last element
dropped. -/
def pairup {α : Type} : List α → List (α × α)
  | x :: y :: rest => (x, y) :: pairup rest
  | _ => []

/-- The built log record. The timestamp is not modelled. -/
structure LogRec where
  category : S
  summary : S
  actor : S
  changetype : S
  dn : S
  actionpairs : Option (List (S × S)) := none
  changepairs : Option (List (S × S)) := none
deriving DecidableEq, Repr

/-- The format string of the membership summary fragment:
space, tag, colon, space, value, space. -/
def memberFmt (ca cv : S) : S := str " " ++ ca ++ str ": " ++ cv ++ str " "

/-- The inner loop of the membership special case: for one action pair
(a, v), walk the change pairs and append the formatted fragment of each
matching pair unless it already occurs in the summary. -/
def memberInner (a v : S) : List (S × S) → S → S
  | [], s => s
  | p :: r, s =>
    if p.1 = a ++ str ":" ++ v then
      if containsSub (memberFmt p.1 p.2) s then memberInner a v r s
      else memberInner a v r (s ++ memberFmt p.1 p.2)
    else memberInner a v r s

/-- The outer loop of the membership special case over the action
pairs. -/
def memberLoop : List (S × S) → List (S × S) → S → S
  | [], _, s => s
  | p :: r, cp, s =>
    if p.2 = str "member" ∨ p.2 = str "memberUid" then
      memberLoop r cp (memberInner p.1 p.2 cp s)
    else memberLoop r cp s

/-- The default summary loop: append operation kind, space, attribute
name, space for every action pair in order. -/
def defaultLoop : List (S × S) → S → S
  | [], s => s
  | p :: r, s => defaultLoop r (s ++ p.1 ++ str " " ++ p.2 ++ str " ")

/-- createLogRecord. A missing actor, changetype or dn key, or a
present actions key with a missing changes key, raises a KeyError,
modelled as none. -/
def createLogRecord (e : Entry) : Option LogRec :=
  match e.actor, e.changetype, e.dn with
  | some actor, some ct, some dn =>
    let base := actor ++ str " " ++ ct ++ str " " ++ dn ++ str " "
    match e.actions with
    | none =>
      some { category := str "ldapChange", summary := base,
             actor := actor, changetype := ct, dn := dn }
    | some acts =>
      match e.changes with
      | none => none
      | some chs =>
        let ap := pairup acts
        let cp := pairup chs
        let summary :=
          if (str "member") ∈ acts ∨ (str "memberUid") ∈ acts then
            memberLoop ap cp base
          else defaultLoop ap base
        some { category := str "ldapChange", summary := summary,
               actor := actor, changetype := ct, dn := dn,
               actionpairs := some ap, changepairs := some cp }
  | _, _, _ => none

/-!
The resumable tail cursor: class Pygtail
(src/ldapChangeMonitor.py lines 247-389).
-/

/-- A file on disk: its inode, its modification time, and its content
as a list of lines. -/
structure FileData where
  ino : Nat
  mtime : Nat
  lines : List S
deriving DecidableEq, Repr

/-- The filesystem: named files in directory order (the order glob
enumerates them), plus the content of the offset side file, none when
that file is absent or empty, otherwise the persisted inode and byte
offset. -/
structure FS where
  files : List (S × FileData)
  offsetFile : Option (Nat × Nat)
deriving DecidableEq, Repr

/-- Find a named file. -/
def fsFind : List (S × FileData) → S → Option FileData
  | [], _ => none
  | (k, d) :: r, n => if k = n then some d else fsFind r n

/-- os.path.exists. -/
def fsExists (fs : FS) (n : S) : Bool := (fsFind fs.files n).isSome

/-- stat(name).st_ino; zero for a missing file (never consulted in the
modelled flows without an existence test). -/
def statIno (fs : FS) (n : S) : Nat :=
  match fsFind fs.files n with
  | some d => d.ino
  | none => 0

/-- stat(name).st_mtime. -/
def statMtime (fs : FS) (n : S) : Nat :=
  match fsFind fs.files n with
  | some d => d.mtime
  | none => 0

/-- Lines of a named file, empty for a missing file. -/
def fileLines (fs : FS) (n : S) : List S :=
  match fsFind fs.files n with
  | some d => d.lines
  | none => []

/-- Byte length of one line including its newline. -/
def lineBytes (l : S) : Nat := l.length + 1

/-- Byte size of a list of lines. -/
def bytesOf : List S → Nat
  | [] => 0
  | l :: rest => lineBytes l + bytesOf rest

/-- Seek to a byte position in a file and return the lines that remain
to be read from there; a position inside a line yields the tail of that
line as the first remaining line. -/
def dropBytesLines : List S → Nat → List S
  | ls, 0 => ls
  | [], _ => []
  | l :: ls, n + 1 =>
      if n + 1 < lineBytes l then (l.drop (n + 1)) :: ls
      else dropBytesLines ls (n + 1 - lineBytes l)

/-- Whether a file name matches the dateext rotation glob pattern:
the base name, a dash, then eight digits. -/
def dashDatePat (filename name : S) : Bool :=
  (decide (name.take (filename.length + 1) = filename ++ [Char.ofNat 45])) &&
    (decide ((name.drop (filename.length + 1)).length = 8)) &&
    (name.drop (filename.length + 1)).all Char.isDigit

/-- Whether a file name matches the TimedRotatingFileHandler glob
pattern: the base name, a dot, four digits, dash, two digits, dash,
two digits. -/
def dotDatePat (filename name : S) : Bool :=
  (decide (name.take (filename.length + 1) = filename ++ str ".")) &&
    (match name.drop (filename.length + 1) with
     | [a, b, c, d, e, f, g, h, i, j] =>
        a.isDigit && b.isDigit && c.isDigit && d.isDigit &&
          (decide (e = Char.ofNat 45)) && f.isDigit && g.isDigit &&
          (decide (h = Char.ofNat 45)) && i.isDigit && j.isDigit
     | _ => false)

/-- Pygtail._check_rotated_filename_candidates: the savelog candidate
base.0 when it exists, base.1.gz exists, and base.0 is newer by
modification time; then the logrotate candidate base.1 when it exists;
then the files matching the dateext pattern; then the files matching
the TimedRotatingFileHandler pattern, glob groups in directory
order. -/
def check_rotated_filename_candidates (fs : FS) (filename : S) : List S :=
  (if fsExists fs (filename ++ str ".0") && fsExists fs (filename ++ str ".1.gz") &&
      decide (statMtime fs (filename ++ str ".1.gz") < statMtime fs (filename ++ str ".0"))
   then [filename ++ str ".0"] else []) ++
  (if fsExists fs (filename ++ str ".1") then [filename ++ str ".1"] else []) ++
  ((fs.files.filter (fun p => dashDatePat filename p.1)).map (fun p => p.1)) ++
  ((fs.files.filter (fun p => dotDatePat filename p.1)).map (fun p => p.1))

/-- Pygtail._determine_rotated_logfile: the first candidate that exists
and whose inode equals the persisted inode. -/
def determine_rotated_logfile (fs : FS) (filename : S) (ino : Nat) : Option S :=
  (check_rotated_filename_candidates fs filename).find?
    (fun c => fsExists fs c && decide (statIno fs c = ino))

/-- The cursor state. The open file handle is modelled as the unread
lines of the open file together with the current byte position, none
while no handle is open; offset_file names the side file, which the
filesystem model carries in its single offsetFile slot. -/
structure PT where
  filename : S
  offset_file : S
  offset_file_inode : Nat
  offset : Nat
  rotated_logfile : Option S
  handle : Option (List S × Nat)
  paranoid : Bool
  pretend : Bool
deriving DecidableEq, Repr

/-- Pygtail.__init__ for an existing target file: read the persisted
pair when the offset side file exists and is non-empty, and when the
persisted inode differs from the inode of the target, look for the
rotated predecessor. -/
def pygtailInit (fs : FS) (filename offsetname : S) (paranoid pretend : Bool) : PT :=
  let base : PT :=
    { filename := filename, offset_file := offsetname, offset_file_inode := 0,
      offset := 0, rotated_logfile := none, handle := none,
      paranoid := paranoid, pretend := pretend }
  match fs.offsetFile with
  | none => base
  | some (ino, off) =>
    if ino ≠ statIno fs filename then
      { base with
        offset_file_inode := ino, offset := off,
        rotated_logfile := determine_rotated_logfile fs filename ino }
    else
      { base with offset_file_inode := ino, offset := off }

/-- Pygtail._filehandle: open the rotated file if set, else the target
file, and seek to the stored offset; a no-op when a handle is open. -/
def ensureHandle (fs : FS) (pt : PT) : PT :=
  match pt.handle with
  | some _ => pt
  | none =>
    let name := pt.rotated_logfile.getD pt.filename
    { pt with handle := some (dropBytesLines (fileLines fs name) pt.offset, pt.offset) }

/-- The byte position of the open handle. -/
def tellOf (pt : PT) : Nat :=
  match pt.handle with
  | some (_, pos) => pos
  | none => 0

/-- The result of an offset-file update or of a read step: the new
filesystem, the new cursor, and the trace of pairs written to the
offset file by this operation. -/
structure Eff where
  fs : FS
  pt : PT
  trace : List (Nat × Nat)
deriving DecidableEq, Repr

/-- Pygtail._update_offset_file: in pretend mode do nothing; otherwise
write the inode of the target file and the position of the open handle
to the offset file. -/
def update_offset_file (fs : FS) (pt : PT) : Eff :=
  if pt.pretend then { fs := fs, pt := pt, trace := [] }
  else
    let pt2 := ensureHandle fs pt
    let w := (statIno fs pt.filename, tellOf pt2)
    { fs := { fs with offsetFile := some w }, pt := pt2, trace := [w] }

/-- One call of Pygtail.next: the line read (none when StopIteration
propagates and the iteration ends), with its effects. Exhaustion of a
rotated file switches to the target file at offset zero, committing the
switch; exhaustion otherwise commits the final position; in paranoid
mode every returned line is followed by a commit. -/
def pygtailStep (fs : FS) (pt : PT) : Option S × Eff :=
  let pt0 := ensureHandle fs pt
  match pt0.handle with
  | some (l :: rest2, pos) =>
    let pt1 := { pt0 with handle := some (rest2, pos + lineBytes l) }
    if pt1.paranoid then
      let e := update_offset_file fs pt1
      (some l, e)
    else (some l, { fs := fs, pt := pt1, trace := [] })
  | some ([], _) =>
    match pt0.rotated_logfile with
    | some _ =>
      let ptA := { pt0 with rotated_logfile := none, handle := none, offset := 0 }
      let e1 := update_offset_file fs ptA
      let ptB := ensureHandle e1.fs e1.pt
      match ptB.handle with
      | some (l :: rest2, pos) =>
        let ptC := { ptB with handle := some (rest2, pos + lineBytes l) }
        if ptC.paranoid then
          let e2 := update_offset_file e1.fs ptC
          (some l, { fs := e2.fs, pt := e2.pt, trace := e1.trace ++ e2.trace })
        else (some l, { fs := e1.fs, pt := ptC, trace := e1.trace })
      | _ =>
        let e2 := update_offset_file e1.fs ptB
        (none, { fs := e2.fs, pt := e2.pt, trace := e1.trace ++ e2.trace })
    | none =>
      let e := update_offset_file fs pt0
      (none, e)
  | none =>
    let e := update_offset_file fs pt0
    (none, e)

/-- The result of draining the iterator: the lines read, with the
accumulated effects. -/
structure DrainOut where
  lines : List S
  fs : FS
  pt : PT
  trace : List (Nat × Nat)
deriving DecidableEq, Repr

/-- Iterate pygtailStep until StopIteration, with fuel. -/
def drainGo : Nat → FS → PT → DrainOut
  | 0, fs, pt => { lines := [], fs := fs, pt := pt, trace := [] }
  | fuel + 1, fs, pt =>
    match pygtailStep fs pt with
    | (none, e) => { lines := [], fs := e.fs, pt := e.pt, trace := e.trace }
    | (some l, e) =>
      let d := drainGo fuel e.fs e.pt
      { lines := l :: d.lines, fs := d.fs, pt := d.pt, trace := e.trace ++ d.trace }

/-- Fuel that always suffices: every returned line comes from the
rotated file or the target file, plus one ending step. -/
def drainFuel (fs : FS) (pt : PT) : Nat :=
  (fileLines fs pt.filename).length +
    (match pt.rotated_logfile with
     | some n => (fileLines fs n).length
     | none => 0) + 2

/-- Read all unread lines, as the for loop of main does. -/
def drainAll (fs : FS) (pt : PT) : DrainOut := drainGo (drainFuel fs pt) fs pt

/-!
The driver: main (src/ldapChangeMonitor.py lines 392-443) and the
delivery client MozDefEvent (lines 47-117).
-/

/-- A dynamically typed Python value, as far as send inspects one. -/
inductive PyVal where
  | vnone : PyVal
  | vstr : S → PyVal
  | vlist : List PyVal → PyVal
  | vdict : List (S × PyVal) → PyVal

/-- type(x) equals dict. -/
def PyVal.isDict : PyVal → Bool
  | PyVal.vdict _ => true
  | _ => false

/-- type(x) equals list. -/
def PyVal.isList : PyVal → Bool
  | PyVal.vlist _ => true
  | _ => false

/-- Python test x is None. -/
def PyVal.isNone : PyVal → Bool
  | PyVal.vnone => true
  | _ => false

/-- The instance fields of MozDefEvent consulted by send. -/
structure MozDefEvent where
  summary : PyVal
  category : PyVal
  severity : PyVal
  tags : PyVal
  details : PyVal
  fire_and_forget_mode : Bool

/-- The outcome of one send call. -/
inductive SendOut where
  | ok : SendOut
  | mozdefError : S → SendOut
  | netError : SendOut
deriving DecidableEq

/-- An argument default of send: replace a None argument by the
instance field. -/
def resolveArg (arg field : PyVal) : PyVal :=
  if arg.isNone then field else arg

/-- MozDefEvent.send: build the message from the arguments with
instance-field defaults, validate, and post; netFails tells whether the
HTTP post raises, which is swallowed in fire-and-forget mode.
The summary validation tests the summary argument itself, not the
resolved message field. -/
def MozDefEvent.send (e : MozDefEvent)
    (summary _category _severity tags details : PyVal) (netFails : Bool) : SendOut :=
  let msgDetails := resolveArg details e.details
  let msgTags := resolveArg tags e.tags
  if ! msgDetails.isDict then SendOut.mozdefError (str "details must be a dict")
  else if ! msgTags.isList then SendOut.mozdefError (str "tags must be a list")
  else if summary.isNone then SendOut.mozdefError (str "Summary is a required field")
  else if netFails && ! e.fire_and_forget_mode then SendOut.netError
  else SendOut.ok

/-- The output selected by options.output. -/
inductive OutMode where
  | syslog : OutMode
  | http : OutMode
  | stdout : OutMode
deriving DecidableEq, Repr

/-- Why a run raised. -/
inductive RunError where
  | parseTypeError : RunError
  | keyError : RunError
  | sendError : RunError
deriving DecidableEq, Repr

/-- The ignore list passed to mzLDIFRecordList in main. -/
def ignoreDefault : List S :=
  [str "jpegPhoto", str "lmPassword", str "ntPassword", str "userPassword",
   str "sshPublicKey", str "pwdHistory", str "other", str "description"]

/-- The dispatch loop of main over the parsed records: build each log
record (a KeyError aborts the run) and deliver it; in http mode a
failing post raises, because main turns fire-and-forget off, and aborts
the run. sendFails gives the network outcome of each post in order. -/
def dispatchLoop : List (S × Entry) → OutMode → List Bool → Nat →
    List LogRec → List LogRec × Option RunError
  | [], _, _, _, acc => (acc.reverse, none)
  | r :: rest, m, fails, i, acc =>
    match createLogRecord r.2 with
    | none => (acc.reverse, some RunError.keyError)
    | some lg =>
      match m with
      | OutMode.http =>
        if fails.getD i false then (acc.reverse, some RunError.sendError)
        else dispatchLoop rest m fails (i + 1) (lg :: acc)
      | _ => dispatchLoop rest m fails (i + 1) (lg :: acc)

/-- The outcome of one run of main. -/
structure MainResult where
  fs : FS
  delivered : List LogRec
  raised : Option RunError
deriving DecidableEq, Repr

/-- main: a missing input file is a no-op; otherwise a pretend pass
drains all unread lines into the temp file; when no line was read or no
line contains the end marker the run stops without touching the offset
file; otherwise the temp lines are parsed, the cursor is committed with
pretend turned off, and the records are dispatched. -/
def mainRun (fs : FS) (inputfile offsetfile : S) (mode : OutMode)
    (sendFails : List Bool) : MainResult :=
  match fsFind fs.files inputfile with
  | none => { fs := fs, delivered := [], raised := none }
  | some _ =>
    let pt := pygtailInit fs inputfile offsetfile false true
    let d := drainAll fs pt
    if d.lines.isEmpty || ! d.lines.any (fun l => containsSub endM l) then
      { fs := d.fs, delivered := [], raised := none }
    else
      match mzParse d.lines ignoreDefault with
      | none => { fs := d.fs, delivered := [], raised := some RunError.parseTypeError }
      | some records =>
        let e := update_offset_file d.fs { d.pt with pretend := false }
        match dispatchLoop records mode sendFails 0 [] with
        | (dl, err) => { fs := e.fs, delivered := dl, raised := err }

/-!
Statement-side definitions: the candidate search as the claim words it,
the relation of inputs differing only in ignored attribute values, and
the concrete scenarios used by counterexamples and witnesses.
-/

/-- The first candidate that exists and carries the wanted inode. -/
def matchIn (fs : FS) (ino : Nat) (cs : List S) : Option S :=
  cs.find? (fun c => fsExists fs c && decide (statIno fs c = ino))

/-- The rotated-predecessor search as claim C3 words it: candidate (a)
is base.0 only when it exists and is OLDER by modification time than
base.1.gz; the remaining groups are as in the source. -/
def claimSearch (fs : FS) (filename : S) (ino : Nat) : Option S :=
  matchIn fs ino
    ((if fsExists fs (filename ++ str ".0") && fsExists fs (filename ++ str ".1.gz") &&
        decide (statMtime fs (filename ++ str ".0") < statMtime fs (filename ++ str ".1.gz"))
      then [filename ++ str ".0"] else []) ++
     (if fsExists fs (filename ++ str ".1") then [filename ++ str ".1"] else []) ++
     ((fs.files.filter (fun p => dashDatePat filename p.1)).map (fun p => p.1)) ++
     ((fs.files.filter (fun p => dotDatePat filename p.1)).map (fun p => p.1)))

/-- The rotated-predecessor search as the amended claim words it, in
staged form: try the savelog candidate base.0 (present, base.1.gz
present, and base.0 NEWER by modification time than base.1.gz), then
the logrotate candidate base.1, then the dateext matches, then the
TimedRotatingFileHandler matches, each stage only when the previous
stages produced no identity match. -/
def amendedSearch (fs : FS) (filename : S) (ino : Nat) : Option S :=
  let g1 :=
    if fsExists fs (filename ++ str ".0") && fsExists fs (filename ++ str ".1.gz") &&
        decide (statMtime fs (filename ++ str ".1.gz") < statMtime fs (filename ++ str ".0"))
    then matchIn fs ino [filename ++ str ".0"] else none
  match g1 with
  | some c => some c
  | none =>
    match (if fsExists fs (filename ++ str ".1") then matchIn fs ino [filename ++ str ".1"] else none) with
    | some c => some c
    | none =>
      match matchIn fs ino ((fs.files.filter (fun p => dashDatePat filename p.1)).map (fun p => p.1)) with
      | some c => some c
      | none => matchIn fs ino ((fs.files.filter (fun p => dotDatePat filename p.1)).map (fun p => p.1))

/-- The side conditions on an ignored attribute name under which its
value line is inert: the name is in the ignore set, nonempty, not a
comment or continuation start, colon-free, and none of the names with a
dedicated parse branch. -/
def NProps (ig : List S) (n : S) : Prop :=
  ignoredMem ig n = true ∧ n ≠ [] ∧
  n.head? ≠ some '#' ∧ n.head? ≠ some ' ' ∧ (':' ∉ n) ∧
  n ≠ str "dn" ∧ ¬ (n ∈ MODOPS) ∧ n ≠ str "changetype"

/-- Two raw lines that differ only in the value of one ignored
attribute: both are the same attribute name, a colon, a space, then a
value; the name satisfies the inertness conditions, and neither line
contains the record terminator marker. -/
def DiffPair (ig : List S) (l1 l2 : S) : Prop :=
  ∃ n v1 v2,
    l1 = n ++ str ": " ++ v1 ∧ l2 = n ++ str ": " ++ v2 ∧
    NProps ig n ∧
    containsSub endM l1 = false ∧ containsSub endM l2 = false

/-- The relation between the attribute pairs the reader returns on
related streams: equal, or the same inert ignored attribute name with
possibly different values. -/
def TVRel (ig : List S) (p1 p2 : Option S × Option S) : Prop :=
  p1 = p2 ∨ ∃ n, p1.1 = some n ∧ p2.1 = some n ∧ NProps ig n

/-- Two raw lines related by the ignored-value relation: equal, or a
differing ignored-attribute pair. -/
def LinRel (ig : List S) (l1 l2 : S) : Prop := l1 = l2 ∨ DiffPair ig l1 l2

/-- The relation lifted to the current line of the stream. -/
def OLinRel (ig : List S) : Option S → Option S → Prop
  | none, none => True
  | some a, some b => LinRel ig a b
  | _, _ => False

/-- Two raw lines differing only in the value of an ignored attribute,
as claim C5 words it, with no further restriction on the values. -/
def ClaimLinRel (ig : List S) (l1 l2 : S) : Prop :=
  l1 = l2 ∨ ∃ n v1 v2,
    l1 = n ++ str ": " ++ v1 ∧ l2 = n ++ str ": " ++ v2 ∧ ignoredMem ig n = true

/-- Scenario for claims C1 and C2: the unread batch holds one complete
record followed by a record cut off before its terminator. -/
def exBatchLines : List S :=
  [str "# add 1 admin", str "dn: uid=bob", str "changetype: add", str "cn: bob",
   str "# end add 1", str "", str "# modify 2 admin", str "dn: uid=alice",
   str "changetype: modify"]

/-- The input file of the batch scenario, with an empty cursor file. -/
def exBatchFS : FS :=
  { files := [(str "audit.ldif", { ino := 7, mtime := 5, lines := exBatchLines })],
    offsetFile := none }

/-- The batch scenario with a cursor file already present, persisting
the matching inode and offset zero. -/
def exBatchFS2 : FS :=
  { files := [(str "audit.ldif", { ino := 7, mtime := 5, lines := exBatchLines })],
    offsetFile := some (7, 0) }

/-- A batch that ends mid-record with no terminator at all. -/
def exNoEndFS : FS :=
  { files := [(str "audit.ldif",
      { ino := 7, mtime := 5, lines := [str "# modify 2 admin", str "dn: uid=alice"] })],
    offsetFile := some (7, 0) }

/-- Scenario for claims C8 and C9: the persisted inode belongs to the
rotated predecessor log.1, which is longer than the current file. -/
def exRotFS : FS :=
  { files := [(str "log", { ino := 2, mtime := 9, lines := [str "x"] }),
              (str "log.1", { ino := 1, mtime := 3, lines := [str "aaaa"] })],
    offsetFile := some (1, 0) }

/-- Scenario for claim C3: log.0 exists and matches the persisted
inode but is OLDER by modification time than log.1.gz, and no other
candidate exists. -/
def exC3FS : FS :=
  { files := [(str "log", { ino := 5, mtime := 10, lines := [str "new"] }),
              (str "log.0", { ino := 3, mtime := 1, lines := [str "old"] }),
              (str "log.1.gz", { ino := 4, mtime := 9, lines := [] })],
    offsetFile := some (3, 7) }

/-- Input for claim C4: a modify record using a replace action,
followed by an add record whose first plain attribute line arrives
before any operation-kind line. -/
def exC4Lines : List S :=
  [str "# modify 100 cn=admin", str "dn: uid=bob", str "changetype: modify",
   str "replace: telephoneNumber", str "telephoneNumber: 555", str "# end modify 100",
   str "", str "# add 101 cn=admin", str "dn: uid=alice", str "changetype: add",
   str "objectClass: person", str "# end add 101"]

/-- Inputs for claim C5: identical apart from the value of the ignored
attribute userPassword; the second value contains the record terminator
marker. -/
def exC5LinesA : List S :=
  [str "# modify 1 cn=admin", str "dn: uid=bob", str "changetype: modify",
   str "userPassword: secret1", str "cn: bob", str "# end modify 1"]

/-- The forged-value twin of the C5 input. -/
def exC5LinesB : List S :=
  [str "# modify 1 cn=admin", str "dn: uid=bob", str "changetype: modify",
   str "userPassword: x # end x", str "cn: bob", str "# end modify 1"]

/-- A benign twin of the C5 input: the userPassword value differs but
contains no terminator marker. -/
def exC5LinesC : List S :=
  [str "# modify 1 cn=admin", str "dn: uid=bob", str "changetype: modify",
   str "userPassword: secret2longer", str "cn: bob", str "# end modify 1"]

/-- The membership record of the C6 example from the spec. -/
def exC6Entry : Entry :=
  { actor := some (str "cn=admin"), changetype := some (str "modify"),
    dn := some (str "cn=agroup,ou=groups,dc=example"),
    actions := some [str "replace", str "member"],
    changes := some [str "replace:member", str "uid=alice,ou=people,dc=example"] }

/-- The C6 example with its matching change pair duplicated, to
exercise deduplication. -/
def exC6EntryDup : Entry :=
  { exC6Entry with
    changes := some [str "replace:member", str "uid=alice,ou=people,dc=example",
                     str "replace:member", str "uid=alice,ou=people,dc=example"] }

/-- The default-summary record of the C7 example from the spec. -/
def exC7Entry : Entry :=
  { actor := some (str "cn=admin"), changetype := some (str "modify"),
    dn := some (str "uid=bob"),
    actions := some [str "replace", str "telephoneNumber"],
    changes := some [str "replace:telephoneNumber", str "555"] }

/-- A record that recorded an action but no change value at all: a
delete of every value of an attribute. -/
def exC7NoChanges : Entry :=
  { actor := some (str "cn=admin"), changetype := some (str "modify"),
    dn := some (str "uid=bob"),
    actions := some [str "delete", str "telephoneNumber"] }

/-!
Helper lemmas about substring occurrence.
-/

theorem containsSub_nil_needle (t : S) : containsSub [] t = true := by
  cases t with
  | nil => simp [containsSub]
  | cons c r => simp [containsSub]

theorem containsSub_of_take {f t : S} (h : t.take f.length = f) :
    containsSub f t = true := by
  cases t with
  | nil => simp [containsSub, h]
  | cons c r => simp [containsSub, h]

theorem containsSub_self (f : S) : containsSub f f = true :=
  containsSub_of_take (List.take_length f)

theorem containsSub_append_tail {f t : S} (s : S) (h : containsSub f t = true) :
    containsSub f (s ++ t) = true := by
  induction s with
  | nil => simpa using h
  | cons c r ih =>
    rw [List.cons_append]
    simp only [containsSub, Bool.or_eq_true]
    right
    exact ih

theorem length_le_of_take_eq {f t : S} (h : t.take f.length = f) :
    f.length ≤ t.length := by
  have h2 := congrArg List.length h
  simp only [List.length_take] at h2
  omega

theorem containsSub_append_left {f s : S} (t : S) (h : containsSub f s = true) :
    containsSub f (s ++ t) = true := by
  induction s with
  | nil =>
    have hf : f = [] := by
      simp only [containsSub, List.take_nil, decide_eq_true_eq] at h
      exact h.symm
    subst hf
    exact containsSub_nil_needle t
  | cons c r ih =>
    simp only [containsSub, Bool.or_eq_true, decide_eq_true_eq] at h
    rw [List.cons_append]
    simp only [containsSub, Bool.or_eq_true, decide_eq_true_eq]
    cases h with
    | inl h1 =>
      left
      have hle : f.length ≤ (c :: r).length := length_le_of_take_eq h1
      calc ((c :: r) ++ t).take f.length
          = (c :: r).take f.length := List.take_append_of_le_length hle
        _ = f := h1
    | inr h2 => right; exact ih h2

theorem containsSub_append_self (f s : S) : containsSub f (s ++ f) = true :=
  containsSub_append_tail s (containsSub_self f)

/-!
Helper lemmas about the summary loops of createLogRecord.
-/

theorem memberInner_mono {f s : S} (a v : S) (cp : List (S × S))
    (h : containsSub f s = true) :
    containsSub f (memberInner a v cp s) = true := by
  induction cp generalizing s with
  | nil => simpa [memberInner] using h
  | cons p r ih =>
    rw [memberInner]
    by_cases h1 : p.1 = a ++ str ":" ++ v
    · rw [if_pos h1]
      by_cases h2 : containsSub (memberFmt p.1 p.2) s = true
      · rw [if_pos h2]; exact ih h
      · rw [if_neg h2]
        exact ih (containsSub_append_left _ h)
    · rw [if_neg h1]; exact ih h

theorem memberInner_hit {a v ca cv : S} (cp : List (S × S)) (s : S)
    (hmem : (ca, cv) ∈ cp) (he : ca = a ++ str ":" ++ v) :
    containsSub (memberFmt ca cv) (memberInner a v cp s) = true := by
  induction cp generalizing s with
  | nil => cases hmem
  | cons p r ih =>
    rw [memberInner]
    rcases List.mem_cons.mp hmem with hp | hr
    · subst hp
      rw [if_pos he]
      by_cases h2 : containsSub (memberFmt ca cv) s = true
      · rw [if_pos h2]; exact memberInner_mono a v r h2
      · rw [if_neg h2]
        exact memberInner_mono a v r (containsSub_append_self _ s)
    · by_cases h1 : p.1 = a ++ str ":" ++ v
      · rw [if_pos h1]
        by_cases h2 : containsSub (memberFmt p.1 p.2) s = true
        · rw [if_pos h2]; exact ih s hr
        · rw [if_neg h2]; exact ih _ hr
      · rw [if_neg h1]; exact ih s hr

theorem memberLoop_mono {f s : S} (ap cp : List (S × S))
    (h : containsSub f s = true) :
    containsSub f (memberLoop ap cp s) = true := by
  induction ap generalizing s with
  | nil => simpa [memberLoop] using h
  | cons p r ih =>
    rw [memberLoop]
    by_cases h1 : p.2 = str "member" ∨ p.2 = str "memberUid"
    · rw [if_pos h1]; exact ih (memberInner_mono _ _ _ h)
    · rw [if_neg h1]; exact ih h

theorem memberLoop_hit {a v ca cv : S} (ap cp : List (S × S)) (s : S)
    (hap : (a, v) ∈ ap) (hv : v = str "member" ∨ v = str "memberUid")
    (hcp : (ca, cv) ∈ cp) (he : ca = a ++ str ":" ++ v) :
    containsSub (memberFmt ca cv) (memberLoop ap cp s) = true := by
  induction ap generalizing s with
  | nil => cases hap
  | cons p r ih =>
    rw [memberLoop]
    rcases List.mem_cons.mp hap with hp | hr
    · subst hp
      rw [if_pos hv]
      exact memberLoop_mono r cp (memberInner_hit cp s hcp he)
    · by_cases h1 : p.2 = str "member" ∨ p.2 = str "memberUid"
      · rw [if_pos h1]; exact ih _ hr
      · rw [if_neg h1]; exact ih s hr

theorem defaultLoop_eq (ap : List (S × S)) (s : S) :
    defaultLoop ap s =
      s ++ (ap.map (fun p => p.1 ++ str " " ++ p.2 ++ str " ")).flatten := by
  induction ap generalizing s with
  | nil => simp [defaultLoop]
  | cons p r ih =>
    rw [defaultLoop, ih]
    simp [List.append_assoc]

/-!
Claim theorems.
-/

/-- Claim C4 (code bug evaluation): on an input of two consecutive
records in which the second record's first plain attribute line arrives
before any operation-kind line, parse tags that change pair with the
operation kind replace left over from the first record, not with the
second record's own change-type add: the action local variable is not
reset on emission, the reset block of the source holding a bare
expression statement action instead of an assignment. -/
theorem c4_action_leak_eval :
    mzParse exC4Lines ignoreDefault =
      some [(str "uid=bob",
             { dn := some (str "uid=bob"), actor := some (str "cn=admin"),
               actions := some [str "replace", str "telephoneNumber"],
               changes := some [str "replace:telephoneNumber", str "555"],
               changetype := some (str "modify") }),
            (str "uid=alice",
             { dn := some (str "uid=alice"), actor := some (str "cn=admin"),
               actions := none,
               changes := some [str "replace:objectClass", str "person"],
               changetype := some (str "add") })] := by
  decide

/-- Claim C6 (confirmed): for a completed record whose actions contain
member or memberUid, the built summary contains, for each membership
action pair, the formatted fragment of every matching change pair; and
on the example of the spec the fragment occurs exactly once, the
generic phrase replace-space-member does not occur, and a duplicated
matching change pair is still surfaced exactly once. -/
theorem c6_membership_summary :
    (∀ (e : Entry) (actor ct dn : S) (acts chs : List S) (lg : LogRec)
        (a v ca cv : S),
      e.actor = some actor → e.changetype = some ct → e.dn = some dn →
      e.actions = some acts → e.changes = some chs →
      ((str "member") ∈ acts ∨ (str "memberUid") ∈ acts) →
      createLogRecord e = some lg →
      (a, v) ∈ pairup acts → (v = str "member" ∨ v = str "memberUid") →
      (ca, cv) ∈ pairup chs → ca = a ++ str ":" ++ v →
      containsSub (memberFmt ca cv) lg.summary = true) ∧
    ((createLogRecord exC6Entry).map
        (fun l => occCount (str "replace:member: uid=alice,ou=people,dc=example") l.summary)
      = some 1) ∧
    ((createLogRecord exC6Entry).map
        (fun l => containsSub (str "replace member") l.summary) = some false) ∧
    ((createLogRecord exC6EntryDup).map
        (fun l => occCount (str "replace:member: uid=alice,ou=people,dc=example") l.summary)
      = some 1) := by
  refine ⟨?_, by decide, by decide, by decide⟩
  intro e actor ct dn acts chs lg a v ca cv h1 h2 h3 h4 h5 hidx hcr hap hv hcp he
  simp only [createLogRecord, h1, h2, h3, h4, h5] at hcr
  rw [if_pos hidx] at hcr
  injection hcr with hlg
  subst hlg
  exact memberLoop_hit (pairup acts) (pairup chs) _ hap hv hcp he

/-- Claim C6 witness: the general conjunct applied to the record of the
example from the spec. -/
theorem c6_witness :
    containsSub
      (memberFmt (str "replace:member") (str "uid=alice,ou=people,dc=example"))
      (str "cn=admin modify cn=agroup,ou=groups,dc=example  replace:member: uid=alice,ou=people,dc=example ")
      = true :=
  c6_membership_summary.1 exC6Entry (str "cn=admin") (str "modify")
    (str "cn=agroup,ou=groups,dc=example")
    [str "replace", str "member"]
    [str "replace:member", str "uid=alice,ou=people,dc=example"]
    { category := str "ldapChange",
      summary := str "cn=admin modify cn=agroup,ou=groups,dc=example  replace:member: uid=alice,ou=people,dc=example ",
      actor := str "cn=admin", changetype := str "modify",
      dn := str "cn=agroup,ou=groups,dc=example",
      actionpairs := some [(str "replace", str "member")],
      changepairs := some [(str "replace:member", str "uid=alice,ou=people,dc=example")] }
    (str "replace") (str "member") (str "replace:member")
    (str "uid=alice,ou=people,dc=example")
    rfl rfl rfl rfl rfl (by decide) (by decide) (by decide) (by decide)
    (by decide) (by decide)

/-- Claim C7 counterexample: a completed record that recorded an action
but no change value at all (a delete of every value of an attribute)
does not get a summary with the action pair appended; createLogRecord
raises a KeyError on the missing changes key instead of building any
event. -/
theorem c7_counterexample : createLogRecord exC7NoChanges = none := by decide

/-- Claim C7 as amended: for every completed record that has actions,
at least one recorded change value, and no membership attribute, the
built event appends operation kind, space, attribute name, space for
every action pair in encounter order, regardless of whether a matching
change pair exists for that action. -/
theorem c7_amended_default_summary :
    ∀ (e : Entry) (actor ct dn : S) (acts chs : List S),
      e.actor = some actor → e.changetype = some ct → e.dn = some dn →
      e.actions = some acts → e.changes = some chs →
      ¬ ((str "member") ∈ acts ∨ (str "memberUid") ∈ acts) →
      createLogRecord e =
        some { category := str "ldapChange",
               summary := (actor ++ str " " ++ ct ++ str " " ++ dn ++ str " ") ++
                 ((pairup acts).map (fun p => p.1 ++ str " " ++ p.2 ++ str " ")).flatten,
               actor := actor, changetype := ct, dn := dn,
               actionpairs := some (pairup acts),
               changepairs := some (pairup chs) } := by
  intro e actor ct dn acts chs h1 h2 h3 h4 h5 hnm
  simp only [createLogRecord, h1, h2, h3, h4, h5]
  rw [if_neg hnm, defaultLoop_eq]

/-- Claim C7 witness: the amended statement applied to the example of
the spec, whose summary contains replace space telephoneNumber
space. -/
theorem c7_witness :
    createLogRecord exC7Entry =
      some { category := str "ldapChange",
             summary := (str "cn=admin" ++ str " " ++ str "modify" ++ str " " ++
                 str "uid=bob" ++ str " ") ++
               (((pairup [str "replace", str "telephoneNumber"]).map
                 (fun p => p.1 ++ str " " ++ p.2 ++ str " ")).flatten),
             actor := str "cn=admin", changetype := str "modify", dn := str "uid=bob",
             actionpairs := some (pairup [str "replace", str "telephoneNumber"]),
             changepairs := some (pairup [str "replace:telephoneNumber", str "555"]) } :=
  c7_amended_default_summary exC7Entry (str "cn=admin") (str "modify") (str "uid=bob")
    [str "replace", str "telephoneNumber"] [str "replace:telephoneNumber", str "555"]
    rfl rfl rfl rfl rfl (by decide)

/-- Claim C10 (confirmed): send raises the summary-required MozDefError
whenever its summary argument is None and the resolved details and tags
pass their type checks, whatever summary the instance was constructed
with; the instance default summary is never usable through send. -/
theorem c10_send_requires_summary_argument :
    ∀ (e : MozDefEvent) (cat sev tags details : PyVal) (netFails : Bool),
      (resolveArg details e.details).isDict = true →
      (resolveArg tags e.tags).isList = true →
      e.send PyVal.vnone cat sev tags details netFails =
        SendOut.mozdefError (str "Summary is a required field") := by
  intro e cat sev tags details nf h1 h2
  simp [MozDefEvent.send, h1, h2, PyVal.isNone]

/-- Claim C10 witness: an instance constructed with a non-None default
summary still gets the summary-required error when send is called with
summary None. -/
theorem c10_witness :
    MozDefEvent.send
      { summary := PyVal.vstr (str "a default summary"),
        category := PyVal.vstr (str "event"), severity := PyVal.vstr (str "INFO"),
        tags := PyVal.vlist [], details := PyVal.vdict [],
        fire_and_forget_mode := true }
      PyVal.vnone PyVal.vnone PyVal.vnone PyVal.vnone PyVal.vnone false =
      SendOut.mozdefError (str "Summary is a required field") :=
  c10_send_requires_summary_argument _ _ _ _ _ _ rfl rfl

/-- Claim C1 counterexample: the batch scenario holds one complete
record (its terminator boundary ends at byte 62, the cut-off record
starting at byte 63) and a record cut off before its terminator; the
run emits one event, so at least one line contains the end marker, and
the committed offset is the full 113 bytes of the drained batch, past
the start of the incomplete record and past the last complete record
boundary, contradicting the claim that the persisted offset is at most
that boundary. -/
theorem c1_counterexample :
    (mainRun exBatchFS (str "audit.ldif") (str "off") OutMode.stdout []).fs.offsetFile
        = some (7, 113) ∧
    bytesOf (exBatchLines.take 5) = 62 ∧
    bytesOf (exBatchLines.take 6) = 63 ∧
    bytesOf exBatchLines = 113 ∧
    ((mzParse exBatchLines ignoreDefault).map List.length = some 1) ∧
    (mainRun exBatchFS (str "audit.ldif") (str "off") OutMode.stdout []).delivered.length
        = 1 ∧
    ¬ (113 ≤ 62) := by
  refine ⟨by decide, by decide, by decide, by decide, by decide, by decide, by decide⟩

/-- Claim C2 counterexample: in http mode with delivery required (main
turns fire-and-forget off) and the first post raising, the run aborts
with nothing delivered, yet the offset file ends up committed at the
end of the batch, 113 bytes past the start of the failed batch, which
began at offset zero: the commit is issued before any send. -/
theorem c2_counterexample :
    exBatchFS.offsetFile = none ∧
    (mainRun exBatchFS (str "audit.ldif") (str "off") OutMode.http [true]).raised
        = some RunError.sendError ∧
    (mainRun exBatchFS (str "audit.ldif") (str "off") OutMode.http [true]).delivered
        = [] ∧
    (mainRun exBatchFS (str "audit.ldif") (str "off") OutMode.http [true]).fs.offsetFile
        = some (7, 113) := by
  refine ⟨by decide, by decide, by decide, by decide⟩

/-- Claim C3 counterexample: log.0 exists, matches the persisted inode
3, and is older by modification time than log.1.gz, exactly the
condition the claim gives for candidate (a); the search the claim
describes would return log.0, but the source excludes log.0 (it
requires it to be newer) and finds no candidate; and contrary to the
claim, reading then starts at the persisted offset 7 of the current
file, not at offset zero. -/
theorem c3_counterexample :
    claimSearch exC3FS (str "log") 3 = some (str "log.0") ∧
    determine_rotated_logfile exC3FS (str "log") 3 = none ∧
    (pygtailInit exC3FS (str "log") (str "off") false true).rotated_logfile = none ∧
    (pygtailInit exC3FS (str "log") (str "off") false true).offset = 7 ∧
    (7 : Nat) ≠ 0 := by
  refine ⟨by decide, by decide, by decide, by decide, by decide⟩

/-- Claim C5 counterexample: two inputs that differ only in the value
of the ignored attribute userPassword (one value containing the record
terminator marker) parse to different results: the forged marker makes
the record be emitted early and the following attribute line then
raises, so the emitted events differ. -/
theorem c5_counterexample :
    List.Forall₂ (ClaimLinRel ignoreDefault) exC5LinesA exC5LinesB ∧
    mzParse exC5LinesA ignoreDefault ≠ mzParse exC5LinesB ignoreDefault := by
  constructor
  · refine List.Forall₂.cons (Or.inl rfl) ?_
    refine List.Forall₂.cons (Or.inl rfl) ?_
    refine List.Forall₂.cons (Or.inl rfl) ?_
    refine List.Forall₂.cons (Or.inr ?_) ?_
    · exact ⟨str "userPassword", str "secret1", str "x # end x", rfl, rfl, by decide⟩
    refine List.Forall₂.cons (Or.inl rfl) ?_
    exact List.Forall₂.cons (Or.inl rfl) List.Forall₂.nil
  · decide

/-- Claim C9 counterexample: draining the rotated scenario in paranoid
mode writes the pair of inode 2 and offset 5 to the offset file after
the first line: inode 2 denotes the current file, whose size is 2
bytes, while 5 is the position reached inside the rotated predecessor,
so the committed offset is not a valid byte position within the file
denoted by the written identity. -/
theorem c9_counterexample :
    (2, 5) ∈ (drainAll exRotFS (pygtailInit exRotFS (str "log") (str "off") true false)).trace ∧
    statIno exRotFS (str "log") = 2 ∧
    bytesOf (fileLines exRotFS (str "log")) = 2 ∧
    ¬ ((5 : Nat) ≤ 2) := by
  refine ⟨by decide, by decide, by decide, by decide⟩

/-!
Helper lemmas about the cursor operations.
-/

theorem update_pretend {fs : FS} {pt : PT} (h : pt.pretend = true) :
    update_offset_file fs pt = { fs := fs, pt := pt, trace := [] } := by
  simp [update_offset_file, h]

theorem ensureHandle_pretend (fs : FS) (pt : PT) :
    (ensureHandle fs pt).pretend = pt.pretend := by
  cases h : pt.handle <;> simp [ensureHandle, h]

theorem pygtailStep_pretend (fs : FS) (pt : PT) (h : pt.pretend = true) :
    (pygtailStep fs pt).2.fs = fs ∧ (pygtailStep fs pt).2.trace = [] ∧
      (pygtailStep fs pt).2.pt.pretend = true := by
  obtain ⟨fn, ofl, ofi, off, rot, hnd, par, prd⟩ := pt
  simp only at h
  subst h
  rcases hnd with _ | ⟨ls, pos⟩
  · rcases rot with _ | n
    · rcases hrem : dropBytesLines (fileLines fs fn) off with _ | ⟨l, rem⟩
      · simp [pygtailStep, ensureHandle, update_offset_file, hrem]
      · cases par <;> simp [pygtailStep, ensureHandle, update_offset_file, hrem]
    · rcases hrem : dropBytesLines (fileLines fs n) off with _ | ⟨l, rem⟩
      · rcases hrem2 : dropBytesLines (fileLines fs fn) 0 with _ | ⟨l2, rem2⟩
        · simp [pygtailStep, ensureHandle, update_offset_file, hrem, hrem2]
        · cases par <;>
            simp [pygtailStep, ensureHandle, update_offset_file, hrem, hrem2]
      · cases par <;> simp [pygtailStep, ensureHandle, update_offset_file, hrem]
  · rcases ls with _ | ⟨l, rem⟩
    · rcases rot with _ | n
      · simp [pygtailStep, ensureHandle, update_offset_file]
      · rcases hrem2 : dropBytesLines (fileLines fs fn) 0 with _ | ⟨l2, rem2⟩
        · simp [pygtailStep, ensureHandle, update_offset_file, hrem2]
        · cases par <;>
            simp [pygtailStep, ensureHandle, update_offset_file, hrem2]
    · cases par <;> simp [pygtailStep, ensureHandle, update_offset_file]

theorem drainGo_pretend (fuel : Nat) :
    ∀ (fs : FS) (pt : PT), pt.pretend = true →
      (drainGo fuel fs pt).fs = fs ∧ (drainGo fuel fs pt).trace = [] ∧
        (drainGo fuel fs pt).pt.pretend = true := by
  induction fuel with
  | zero => intro fs pt h; exact ⟨rfl, rfl, h⟩
  | succ n ih =>
    intro fs pt h
    have hp := pygtailStep_pretend fs pt h
    rw [drainGo]
    rcases hs : pygtailStep fs pt with ⟨line, e⟩
    rw [hs] at hp
    rcases line with _ | l
    · exact hp
    · have hrec := ih e.fs e.pt hp.2.2
      have hp2 : e.trace = [] := hp.2.1
      refine ⟨?_, ?_, ?_⟩
      · simp only [hrec.1]; exact hp.1
      · simp only [hrec.2.1, hp2]; rfl
      · exact hrec.2.2

/-- Claim C8 (confirmed): while pretend is set, any amount of reading,
including draining a rotated predecessor, and any explicit or implicit
offset-file update leave the offset file untouched: nothing is ever
written to it. -/
theorem c8_pretend_no_commit :
    ∀ (fuel : Nat) (fs : FS) (pt : PT), pt.pretend = true →
      (drainGo fuel fs pt).fs.offsetFile = fs.offsetFile ∧
      (drainGo fuel fs pt).trace = [] ∧
      (update_offset_file fs pt).fs.offsetFile = fs.offsetFile := by
  intro fuel fs pt h
  obtain ⟨h1, h2, _⟩ := drainGo_pretend fuel fs pt h
  exact ⟨by rw [h1], h2, by rw [update_pretend h]⟩

/-- Claim C8 witness: a pretend instance draining the rotated scenario,
rotation switch included, leaves the offset file byte-for-byte as it
was and writes nothing. -/
theorem c8_witness :
    (drainAll exRotFS (pygtailInit exRotFS (str "log") (str "off") true true)).fs.offsetFile
        = exRotFS.offsetFile ∧
    (drainAll exRotFS (pygtailInit exRotFS (str "log") (str "off") true true)).trace = [] := by
  have h := c8_pretend_no_commit
    (drainFuel exRotFS (pygtailInit exRotFS (str "log") (str "off") true true))
    exRotFS (pygtailInit exRotFS (str "log") (str "off") true true) rfl
  exact ⟨h.1, h.2.1⟩

/-!
Byte-position arithmetic and exact characterisation of a drain that
reads only the current file.
-/

theorem dropBytesLines_length_le (ls : List S) (off : Nat) :
    (dropBytesLines ls off).length ≤ ls.length := by
  induction ls generalizing off with
  | nil => cases off <;> simp [dropBytesLines]
  | cons l rest ih =>
    cases off with
    | zero => simp [dropBytesLines]
    | succ n =>
      simp only [dropBytesLines]
      split
      · simp
      · exact Nat.le_trans (ih (n + 1 - lineBytes l)) (Nat.le_succ _)

theorem bytesOf_dropBytesLines (ls : List S) (off : Nat) (h : off ≤ bytesOf ls) :
    off + bytesOf (dropBytesLines ls off) = bytesOf ls := by
  induction ls generalizing off with
  | nil =>
    have h0 : off = 0 := by simpa [bytesOf] using h
    subst h0
    simp [dropBytesLines, bytesOf]
  | cons l rest ih =>
    cases off with
    | zero => simp [dropBytesLines]
    | succ n =>
      simp only [dropBytesLines]
      split
      · rename_i hlt
        simp only [bytesOf, lineBytes, List.length_drop] at *
        omega
      · rename_i hlt
        have h2 : n + 1 - lineBytes l ≤ bytesOf rest := by
          simp only [bytesOf] at h
          omega
        have h3 := ih (n + 1 - lineBytes l) h2
        simp only [bytesOf]
        omega

theorem ensureHandle_of_handle (fs : FS) {pt : PT} {x : List S × Nat}
    (h : pt.handle = some x) : ensureHandle fs pt = pt := by
  simp [ensureHandle, h]

theorem ensureHandle_idem (fs : FS) (pt : PT) :
    ensureHandle fs (ensureHandle fs pt) = ensureHandle fs pt := by
  cases h : pt.handle <;> simp [ensureHandle, h]

theorem pygtailStep_ensure (fs : FS) (pt : PT) :
    pygtailStep fs (ensureHandle fs pt) = pygtailStep fs pt := by
  unfold pygtailStep
  rw [ensureHandle_idem]

theorem drainGo_succ_ensure (fuel : Nat) (fs : FS) (pt : PT) :
    drainGo (fuel + 1) fs (ensureHandle fs pt) = drainGo (fuel + 1) fs pt := by
  simp only [drainGo, pygtailStep_ensure]

theorem pygtailStep_cons (fs : FS) {pt : PT} {l : S} {rem : List S} {pos : Nat}
    (hh : pt.handle = some (l :: rem, pos)) :
    pygtailStep fs pt =
      (some l,
        if pt.paranoid then
          update_offset_file fs { pt with handle := some (rem, pos + lineBytes l) }
        else
          { fs := fs, pt := { pt with handle := some (rem, pos + lineBytes l) },
            trace := [] }) := by
  simp only [pygtailStep, ensureHandle_of_handle fs hh, hh]
  split <;> rfl

theorem pygtailStep_nil_noRot (fs : FS) {pt : PT} {pos : Nat}
    (hh : pt.handle = some ([], pos)) (hrot : pt.rotated_logfile = none) :
    pygtailStep fs pt = (none, update_offset_file fs pt) := by
  simp only [pygtailStep, ensureHandle_of_handle fs hh, hh, hrot]

theorem drainGo_noRot_pretend :
    ∀ (rem : List S) (fuel pos : Nat) (fs : FS) (pt : PT),
      pt.pretend = true → pt.rotated_logfile = none →
      pt.handle = some (rem, pos) → rem.length < fuel →
      drainGo fuel fs pt =
        { lines := rem, fs := fs,
          pt := { pt with handle := some ([], pos + bytesOf rem) }, trace := [] } := by
  intro rem
  induction rem with
  | nil =>
    intro fuel pos fs pt hpre hrot hh hfuel
    cases fuel with
    | zero => omega
    | succ n =>
      have heta : ({ pt with handle := some ([], pos + bytesOf []) }) = pt := by
        have : pos + bytesOf [] = pos := by simp [bytesOf]
        rw [this, ← hh]
      rw [heta]
      simp only [drainGo, pygtailStep_nil_noRot fs hh hrot, update_pretend hpre]
  | cons l rem2 ih =>
    intro fuel pos fs pt hpre hrot hh hfuel
    cases fuel with
    | zero => simp at hfuel
    | succ n =>
      have hstep : pygtailStep fs pt =
          (some l, { fs := fs, pt := { pt with handle := some (rem2, pos + lineBytes l) },
                     trace := [] }) := by
        rw [pygtailStep_cons fs hh]
        have hp1 : ({ pt with handle := some (rem2, pos + lineBytes l) } : PT).pretend
            = true := hpre
        split
        · rw [update_pretend hp1]
        · rfl
      have hrec := ih n (pos + lineBytes l) fs
        { pt with handle := some (rem2, pos + lineBytes l) }
        hpre hrot rfl (by simpa using Nat.lt_of_succ_lt_succ hfuel)
      simp only [drainGo, hstep, hrec]
      simp [bytesOf, Nat.add_assoc]

/-!
The parser never emits more records than there are lines containing the
end marker: the reader always moves forward through a suffix of the
stream, and each emission requires the marker in the line the reader
stopped at.
-/

theorem suffix_of_optCons_suffix {c : Option S} {r rest : List S}
    (h : List.IsSuffix (optCons c r) rest) : List.IsSuffix r rest := by
  cases c with
  | none => exact h
  | some l => exact List.IsSuffix.trans (List.suffix_cons l r) h

theorem unfoldRest_suffix (rs : List S) (acc : S) :
    List.IsSuffix (optCons (unfoldRest rs acc).2.1 (unfoldRest rs acc).2.2) rs := by
  induction rs generalizing acc with
  | nil => simp [unfoldRest, optCons]
  | cons l rs ih =>
    simp only [unfoldRest]
    split
    · exact List.IsSuffix.trans (ih (acc ++ l.drop 1)) (List.suffix_cons l rs)
    · simp [optCons]

theorem skipComments_suffix (fuel : Nat) :
    ∀ (u : S) (cur : Option S) (rest : List S),
      List.IsSuffix
        (optCons (skipComments fuel u cur rest).2.1 (skipComments fuel u cur rest).2.2)
        (optCons cur rest) := by
  induction fuel with
  | zero => intro u cur rest; simp [skipComments]
  | succ n ih =>
    intro u cur rest
    simp only [skipComments]
    split
    · rcases hu : unfoldLDIF cur rest with ⟨u2, c2, r2⟩
      have h1 := ih u2 c2 r2
      have h2 : List.IsSuffix (optCons c2 r2) rest := by
        have := unfoldRest_suffix rest (cur.getD [])
        rw [show unfoldRest rest (cur.getD []) = unfoldLDIF cur rest from rfl, hu] at this
        exact this
      have h3 : List.IsSuffix rest (optCons cur rest) := by
        cases cur with
        | none => exact List.suffix_rfl
        | some l => exact List.suffix_cons l rest
      exact List.IsSuffix.trans h1 (List.IsSuffix.trans h2 h3)
    · exact List.suffix_rfl

theorem parseAttr_suffix (cur : S) (rest : List S) :
    List.IsSuffix
      (optCons (parseAttrTypeAndValue cur rest).2.1 (parseAttrTypeAndValue cur rest).2.2)
      rest := by
  unfold parseAttrTypeAndValue
  rcases hu : unfoldLDIF (some cur) rest with ⟨u0, c0, r0⟩
  have h0 : List.IsSuffix (optCons c0 r0) rest := by
    have h := unfoldRest_suffix rest cur
    have he : unfoldRest rest cur = (u0, c0, r0) := hu
    rw [he] at h
    exact h
  rcases hs : skipComments (r0.length + 2) u0 c0 r0 with ⟨u, c, r⟩
  have h1 := skipComments_suffix (r0.length + 2) u0 c0 r0
  rw [hs] at h1
  have h2 : List.IsSuffix (optCons c r) rest := List.IsSuffix.trans h1 h0
  simp only [hu, hs]
  split
  · exact h2
  · split
    · exact h2
    · split <;> exact h2

theorem parseLoop_length_le (ig : List S) :
    ∀ (fuel : Nat) (cur : Option S) (rest : List S) (dnL ctL : Option S) (act : S)
      (entry : Entry) (acc out : List (S × Entry)),
      parseLoop ig fuel cur rest dnL ctL act entry acc = some out →
      out.length ≤ acc.length + rest.countP (fun l => containsSub endM l) := by
  intro fuel
  induction fuel with
  | zero =>
    intro cur rest dnL ctL act entry acc out h
    simp only [parseLoop] at h
    injection h with h
    subst h
    simp
  | succ n ih =>
    intro cur rest dnL ctL act entry acc out h
    cases cur with
    | none =>
      simp only [parseLoop] at h
      injection h with h
      subst h
      simp
    | some cur =>
      simp only [parseLoop] at h
      rcases hq : parseAttrTypeAndValue cur rest with ⟨tv, cur2, rest2⟩
      simp only [hq] at h
      have hsuf : List.IsSuffix (optCons cur2 rest2) rest := by
        have hp := parseAttr_suffix cur rest
        rw [hq] at hp
        exact hp
      have hsuf2 : rest2.countP (fun l => containsSub endM l) ≤
          rest.countP (fun l => containsSub endM l) :=
        List.Sublist.countP_le _ ((suffix_of_optCons_suffix hsuf).sublist)
      rcases hb : parseBranch ig tv dnL ctL act
          (match beginMatch cur with
           | some a => { entry with actor := some a }
           | none => entry) with _ | ⟨dn2, ct2, act2, entry2⟩
      · simp only [hb] at h
        exact Option.noConfusion h
      · simp only [hb] at h
        cases hcur2 : cur2 with
        | none =>
          have hemit : emitTest dn2 entry2 cur2 = false := by
            simp [emitTest, hcur2]
          simp only [hemit, Bool.false_eq_true, if_false] at h
          have hrec := ih cur2 rest2 dn2 ct2 act2 entry2 acc out h
          exact Nat.le_trans hrec (Nat.add_le_add_left hsuf2 acc.length)
        | some lc =>
          by_cases hemit : emitTest dn2 entry2 cur2 = true
          · simp only [hemit, if_true] at h
            have hend : containsSub endM lc = true := by
              rw [hcur2] at hemit
              simp only [emitTest, Bool.and_eq_true] at hemit
              exact hemit.2
            have hcount : 1 + rest2.countP (fun l => containsSub endM l) ≤
                rest.countP (fun l => containsSub endM l) := by
              have hsub := hsuf.sublist
              rw [hcur2] at hsub
              have hc := List.Sublist.countP_le (fun l => containsSub endM l) hsub
              simp only [optCons, List.countP_cons, hend] at hc
              simpa [Nat.add_comm] using hc
            cases hdn : dn2 with
            | none =>
              simp only [hdn] at h
              have hrec := ih cur2 rest2 none ct2 act2 entry2 acc out h
              exact Nat.le_trans hrec (Nat.add_le_add_left hsuf2 acc.length)
            | some d =>
              simp only [hdn] at h
              have hrec := ih cur2 rest2 none none act2 {}
                ((d, if entry2.actor = none then { entry2 with actor := some (str "unknown") }
                     else entry2) :: acc) out h
              simp only [List.length_cons] at hrec
              refine Nat.le_trans hrec ?_
              rw [Nat.add_assoc]
              exact Nat.add_le_add_left hcount acc.length
          · have hemit2 : emitTest dn2 entry2 cur2 = false := by
              cases he : emitTest dn2 entry2 cur2 with
              | true => exact absurd he hemit
              | false => rfl
            simp only [hemit2, Bool.false_eq_true, if_false] at h
            have hrec := ih cur2 rest2 dn2 ct2 act2 entry2 acc out h
            exact Nat.le_trans hrec (Nat.add_le_add_left hsuf2 acc.length)

theorem mzParse_length_le (lines ig : List S) (out : List (S × Entry))
    (h : mzParse lines ig = some out) :
    out.length ≤ lines.countP (fun l => containsSub endM l) := by
  have h1 := parseLoop_length_le ig (lines.length + 1) lines.head? lines.tail
    none none [] {} [] out h
  have h2 : lines.tail.countP (fun l => containsSub endM l) ≤
      lines.countP (fun l => containsSub endM l) :=
    List.Sublist.countP_le _ (List.tail_sublist lines)
  have h3 : out.length ≤ lines.tail.countP (fun l => containsSub endM l) := by
    simpa using h1
  exact Nat.le_trans h3 h2

/-!
Reduction of a run of main in the unrotated case: the persisted inode
matches the input file, so the pretend pass drains exactly the lines
past the persisted offset, and the only offset-file write is the single
commit to the end of the file once the end marker was seen.
-/

theorem statIno_of_find {fs : FS} {n : S} {fd : FileData}
    (h : fsFind fs.files n = some fd) : statIno fs n = fd.ino := by
  simp [statIno, h]

theorem fileLines_of_find {fs : FS} {n : S} {fd : FileData}
    (h : fsFind fs.files n = some fd) : fileLines fs n = fd.lines := by
  simp [fileLines, h]

theorem mainRun_reduce (fs : FS) (fd : FileData) (inputfile offsetfile : S)
    (mode : OutMode) (sendFails : List Bool) (off : Nat)
    (h1 : fsFind fs.files inputfile = some fd)
    (h2 : fs.offsetFile = some (fd.ino, off))
    (h3 : off ≤ bytesOf fd.lines) :
    mainRun fs inputfile offsetfile mode sendFails =
      if (dropBytesLines fd.lines off).isEmpty
          || ! (dropBytesLines fd.lines off).any (fun l => containsSub endM l) then
        { fs := fs, delivered := [], raised := none }
      else
        match mzParse (dropBytesLines fd.lines off) ignoreDefault with
        | none => { fs := fs, delivered := [], raised := some RunError.parseTypeError }
        | some records =>
          match dispatchLoop records mode sendFails 0 [] with
          | (dl, err) =>
            { fs := { fs with offsetFile := some (fd.ino, bytesOf fd.lines) },
              delivered := dl, raised := err } := by
  have hpt : pygtailInit fs inputfile offsetfile false true =
      { filename := inputfile, offset_file := offsetfile, offset_file_inode := fd.ino,
        offset := off, rotated_logfile := none, handle := none,
        paranoid := false, pretend := true } := by
    simp [pygtailInit, h2, statIno_of_find h1]
  have hEns : ensureHandle fs
      { filename := inputfile, offset_file := offsetfile, offset_file_inode := fd.ino,
        offset := off, rotated_logfile := none, handle := none,
        paranoid := false, pretend := true } =
      { filename := inputfile, offset_file := offsetfile, offset_file_inode := fd.ino,
        offset := off, rotated_logfile := none,
        handle := some (dropBytesLines fd.lines off, off),
        paranoid := false, pretend := true } := by
    simp [ensureHandle, fileLines_of_find h1]
  have hbytes : off + bytesOf (dropBytesLines fd.lines off) = bytesOf fd.lines :=
    bytesOf_dropBytesLines fd.lines off h3
  have hdrain : drainAll fs
      { filename := inputfile, offset_file := offsetfile, offset_file_inode := fd.ino,
        offset := off, rotated_logfile := none, handle := none,
        paranoid := false, pretend := true } =
      { lines := dropBytesLines fd.lines off, fs := fs,
        pt := { filename := inputfile, offset_file := offsetfile,
                offset_file_inode := fd.ino, offset := off, rotated_logfile := none,
                handle := some ([], bytesOf fd.lines),
                paranoid := false, pretend := true },
        trace := [] } := by
    unfold drainAll
    have hfuel : drainFuel fs
        { filename := inputfile, offset_file := offsetfile, offset_file_inode := fd.ino,
          offset := off, rotated_logfile := none, handle := none,
          paranoid := false, pretend := true } = (fd.lines.length + 1) + 1 := by
      simp [drainFuel, fileLines_of_find h1]
    rw [hfuel, ← drainGo_succ_ensure, hEns]
    have hlt : (dropBytesLines fd.lines off).length < fd.lines.length + 1 + 1 := by
      have hle := dropBytesLines_length_le fd.lines off
      omega
    have hout := drainGo_noRot_pretend (dropBytesLines fd.lines off)
      (fd.lines.length + 1 + 1) off fs
      { filename := inputfile, offset_file := offsetfile, offset_file_inode := fd.ino,
        offset := off, rotated_logfile := none,
        handle := some (dropBytesLines fd.lines off, off),
        paranoid := false, pretend := true }
      rfl rfl rfl hlt
    rw [hout, hbytes]
  have hupd : update_offset_file fs
      { filename := inputfile, offset_file := offsetfile, offset_file_inode := fd.ino,
        offset := off, rotated_logfile := none,
        handle := some ([], bytesOf fd.lines),
        paranoid := false, pretend := false } =
      { fs := { fs with offsetFile := some (fd.ino, bytesOf fd.lines) },
        pt := { filename := inputfile, offset_file := offsetfile,
                offset_file_inode := fd.ino, offset := off, rotated_logfile := none,
                handle := some ([], bytesOf fd.lines),
                paranoid := false, pretend := false },
        trace := [(fd.ino, bytesOf fd.lines)] } := by
    simp [update_offset_file, ensureHandle, tellOf, statIno_of_find h1]
  simp only [mainRun, h1, hpt, hdrain, hupd]

/-- Claim C1 as amended: the parser emits at most as many records as
there are lines containing the end marker, so a record cut off before
its terminator yields no event; a batch with no end marker at all
leaves the run a no-op with the offset file untouched; but a batch
containing at least one end marker has its offset committed to the end
of the entire drained batch, past any incomplete tail. -/
theorem c1_amended_batch_commit :
    (∀ (lines ig : List S) (out : List (S × Entry)),
       mzParse lines ig = some out →
       out.length ≤ lines.countP (fun l => containsSub endM l)) ∧
    (∀ (fs : FS) (fd : FileData) (inputfile offsetfile : S) (mode : OutMode)
        (sendFails : List Bool) (off : Nat),
       fsFind fs.files inputfile = some fd →
       fs.offsetFile = some (fd.ino, off) →
       off ≤ bytesOf fd.lines →
       (∀ l ∈ dropBytesLines fd.lines off, containsSub endM l = false) →
       mainRun fs inputfile offsetfile mode sendFails =
         { fs := fs, delivered := [], raised := none }) ∧
    (∀ (fs : FS) (fd : FileData) (inputfile offsetfile : S) (mode : OutMode)
        (sendFails : List Bool) (off : Nat),
       fsFind fs.files inputfile = some fd →
       fs.offsetFile = some (fd.ino, off) →
       off ≤ bytesOf fd.lines →
       (∃ l ∈ dropBytesLines fd.lines off, containsSub endM l = true) →
       (mzParse (dropBytesLines fd.lines off) ignoreDefault).isSome = true →
       (mainRun fs inputfile offsetfile mode sendFails).fs.offsetFile =
         some (fd.ino, bytesOf fd.lines)) := by
  refine ⟨fun lines ig out h => mzParse_length_le lines ig out h, ?_, ?_⟩
  · intro fs fd inputfile offsetfile mode sendFails off h1 h2 h3 hno
    rw [mainRun_reduce fs fd inputfile offsetfile mode sendFails off h1 h2 h3]
    have hany : (dropBytesLines fd.lines off).any (fun l => containsSub endM l) = false :=
      List.any_eq_false.mpr (fun x hx => by simp [hno x hx])
    rw [hany]
    simp
  · intro fs fd inputfile offsetfile mode sendFails off h1 h2 h3 hex hsome
    rw [mainRun_reduce fs fd inputfile offsetfile mode sendFails off h1 h2 h3]
    obtain ⟨l, hl, hc⟩ := hex
    have hany : (dropBytesLines fd.lines off).any (fun l => containsSub endM l) = true :=
      List.any_eq_true.mpr ⟨l, hl, hc⟩
    have hne : (dropBytesLines fd.lines off).isEmpty = false := by
      cases hdrop : dropBytesLines fd.lines off with
      | nil => rw [hdrop] at hl; cases hl
      | cons a b => rfl
    rw [hany, hne]
    obtain ⟨recs, hrecs⟩ := Option.isSome_iff_exists.mp hsome
    rw [hrecs]
    rcases hd : dispatchLoop recs mode sendFails 0 [] with ⟨dl, err⟩
    simp [hd]

/-- Claim C1 witness: a comment-only input emits no record though its
line carries the marker; the no-marker batch leaves the run a no-op;
and the complete-plus-cut-off batch commits to the full 113 bytes. -/
theorem c1_witness :
    ([] : List (S × Entry)).length ≤
      [str "# end add 1"].countP (fun l => containsSub endM l) ∧
    mainRun exNoEndFS (str "audit.ldif") (str "off") OutMode.stdout [] =
      { fs := exNoEndFS, delivered := [], raised := none } ∧
    (mainRun exBatchFS2 (str "audit.ldif") (str "off") OutMode.stdout []).fs.offsetFile =
      some (7, bytesOf exBatchLines) :=
  ⟨c1_amended_batch_commit.1 [str "# end add 1"] ignoreDefault [] (by decide),
   c1_amended_batch_commit.2.1 exNoEndFS
     { ino := 7, mtime := 5, lines := [str "# modify 2 admin", str "dn: uid=alice"] }
     (str "audit.ldif") (str "off") OutMode.stdout [] 0
     (by decide) rfl (by decide) (by decide),
   c1_amended_batch_commit.2.2 exBatchFS2
     { ino := 7, mtime := 5, lines := exBatchLines }
     (str "audit.ldif") (str "off") OutMode.stdout [] 0
     (by decide) rfl (by decide)
     ⟨str "# end add 1", by decide, by decide⟩ (by decide)⟩

/-- Claim C2 as amended: for an http run over a batch with a complete
record, the offset file is committed to the end of the drained batch
whatever the delivery outcomes are; and when the first post raises
(delivery being required), the run aborts with nothing delivered while
that commit has already happened. -/
theorem c2_amended_commit_before_send :
    ∀ (fs : FS) (fd : FileData) (inputfile offsetfile : S) (off : Nat)
      (recs : List (S × Entry)),
      fsFind fs.files inputfile = some fd →
      fs.offsetFile = some (fd.ino, off) →
      off ≤ bytesOf fd.lines →
      (∃ l ∈ dropBytesLines fd.lines off, containsSub endM l = true) →
      mzParse (dropBytesLines fd.lines off) ignoreDefault = some recs →
      (∀ (sendFails : List Bool),
        (mainRun fs inputfile offsetfile OutMode.http sendFails).fs.offsetFile =
          some (fd.ino, bytesOf fd.lines)) ∧
      (∀ (r : S × Entry) (rs : List (S × Entry)) (lg : LogRec) (rest : List Bool),
        recs = r :: rs → createLogRecord r.2 = some lg →
        (mainRun fs inputfile offsetfile OutMode.http (true :: rest)).delivered = [] ∧
        (mainRun fs inputfile offsetfile OutMode.http (true :: rest)).raised =
          some RunError.sendError) := by
  intro fs fd inputfile offsetfile off recs h1 h2 h3 hex hrecs
  obtain ⟨l, hl, hc⟩ := hex
  have hany : (dropBytesLines fd.lines off).any (fun l => containsSub endM l) = true :=
    List.any_eq_true.mpr ⟨l, hl, hc⟩
  have hne : (dropBytesLines fd.lines off).isEmpty = false := by
    cases hdrop : dropBytesLines fd.lines off with
    | nil => rw [hdrop] at hl; cases hl
    | cons a b => rfl
  constructor
  · intro sendFails
    rw [mainRun_reduce fs fd inputfile offsetfile OutMode.http sendFails off h1 h2 h3]
    rw [hany, hne, hrecs]
    rcases hd : dispatchLoop recs OutMode.http sendFails 0 [] with ⟨dl, err⟩
    simp [hd]
  · intro r rs lg rest hr hlg
    rw [mainRun_reduce fs fd inputfile offsetfile OutMode.http (true :: rest) off h1 h2 h3]
    rw [hany, hne, hrecs, hr]
    have hd : dispatchLoop (r :: rs) OutMode.http (true :: rest) 0 [] =
        ([], some RunError.sendError) := by
      simp [dispatchLoop, hlg]
    simp [hd]

/-- Claim C2 witness: the amended statement applied to the batch
scenario: the commit happens for a failing first post and for a
succeeding one alike, and the failing post aborts the run with nothing
delivered. -/
theorem c2_witness :
    (mainRun exBatchFS2 (str "audit.ldif") (str "off") OutMode.http [false]).fs.offsetFile =
      some (7, bytesOf exBatchLines) ∧
    (mainRun exBatchFS2 (str "audit.ldif") (str "off") OutMode.http [true]).delivered = [] ∧
    (mainRun exBatchFS2 (str "audit.ldif") (str "off") OutMode.http [true]).raised =
      some RunError.sendError := by
  have h := c2_amended_commit_before_send exBatchFS2
    { ino := 7, mtime := 5, lines := exBatchLines }
    (str "audit.ldif") (str "off") 0
    [(str "uid=bob",
      { dn := some (str "uid=bob"), actor := some (str "admin"), actions := none,
        changes := some [str "add:cn", str "bob"], changetype := some (str "add") })]
    (by decide) rfl (by decide)
    ⟨str "# end add 1", by decide, by decide⟩ (by decide)
  have h2 := h.2
    (str "uid=bob",
      { dn := some (str "uid=bob"), actor := some (str "admin"), actions := none,
        changes := some [str "add:cn", str "bob"], changetype := some (str "add") })
    []
    { category := str "ldapChange", summary := str "admin add uid=bob ",
      actor := str "admin", changetype := str "add", dn := str "uid=bob",
      actionpairs := none, changepairs := none }
    [] rfl (by decide)
  exact ⟨h.1 [false], h2.1, h2.2⟩

/-!
Validity of committed pairs while no rotated predecessor is open.
-/

theorem update_files (fs : FS) (pt : PT) :
    (update_offset_file fs pt).fs.files = fs.files := by
  unfold update_offset_file
  split <;> rfl

theorem tellOf_of_handle {pt : PT} {rem : List S} {pos : Nat}
    (h : pt.handle = some (rem, pos)) : tellOf pt = pos := by
  simp [tellOf, h]

theorem update_pt_of_handle {fs : FS} {pt : PT} {x : List S × Nat}
    (h : pt.handle = some x) : (update_offset_file fs pt).pt = pt := by
  unfold update_offset_file
  split
  · rfl
  · rw [ensureHandle_of_handle fs h]

theorem update_trace_mem (fs : FS) (pt : PT) :
    ∀ w ∈ (update_offset_file fs pt).trace,
      w = (statIno fs pt.filename, tellOf (ensureHandle fs pt)) := by
  unfold update_offset_file
  split
  · intro w hw; cases hw
  · intro w hw
    simp only [List.mem_singleton] at hw
    exact hw

theorem statIno_eq_of_files {fs1 fs2 : FS} (h : fs1.files = fs2.files) (n : S) :
    statIno fs1 n = statIno fs2 n := by
  simp [statIno, h]

theorem fileLines_eq_of_files {fs1 fs2 : FS} (h : fs1.files = fs2.files) (n : S) :
    fileLines fs1 n = fileLines fs2 n := by
  simp [fileLines, h]

/-- Claim C9 as amended: when no rotated predecessor is open, every
pair the drain loop writes to the offset file, per-line paranoid
commits and the final commit alike, carries the identity of the target
file together with a byte position that is valid within that file. -/
theorem c9_amended_offset_validity :
    ∀ (rem : List S) (fuel : Nat) (fs : FS) (pt : PT) (pos : Nat),
      pt.rotated_logfile = none → pt.handle = some (rem, pos) →
      pos + bytesOf rem = bytesOf (fileLines fs pt.filename) →
      ∀ w ∈ (drainGo fuel fs pt).trace,
        w.1 = statIno fs pt.filename ∧
        w.2 ≤ bytesOf (fileLines fs pt.filename) := by
  intro rem
  induction rem with
  | nil =>
    intro fuel fs pt pos hrot hh hinv w hw
    cases fuel with
    | zero => cases hw
    | succ n =>
      simp only [drainGo, pygtailStep_nil_noRot fs hh hrot] at hw
      have hweq := update_trace_mem fs pt w hw
      rw [ensureHandle_of_handle fs hh, tellOf_of_handle hh] at hweq
      subst hweq
      have hpos : pos = bytesOf (fileLines fs pt.filename) := by
        simpa [bytesOf] using hinv
      exact ⟨rfl, Nat.le_of_eq hpos⟩
  | cons l rem2 ih =>
    intro fuel fs pt pos hrot hh hinv w hw
    cases fuel with
    | zero => cases hw
    | succ n =>
      simp only [drainGo, pygtailStep_cons fs hh] at hw
      by_cases hpar : pt.paranoid = true
      · rw [if_pos hpar] at hw
        have hh1 : ({ pt with handle := some (rem2, pos + lineBytes l) } : PT).handle
            = some (rem2, pos + lineBytes l) := rfl
        rcases List.mem_append.mp hw with hw1 | hw2
        · have hweq := update_trace_mem fs
            { pt with handle := some (rem2, pos + lineBytes l) } w hw1
          rw [ensureHandle_of_handle fs hh1, tellOf_of_handle hh1] at hweq
          subst hweq
          refine ⟨rfl, ?_⟩
          simp only [bytesOf] at hinv
          omega
        · have hfiles : (update_offset_file fs
              { pt with handle := some (rem2, pos + lineBytes l) }).fs.files = fs.files :=
            update_files fs _
          have hpt : (update_offset_file fs
              { pt with handle := some (rem2, pos + lineBytes l) }).pt =
              { pt with handle := some (rem2, pos + lineBytes l) } :=
            update_pt_of_handle hh1
          have hinv2 : (pos + lineBytes l) + bytesOf rem2 =
              bytesOf (fileLines
                (update_offset_file fs { pt with handle := some (rem2, pos + lineBytes l) }).fs
                ({ pt with handle := some (rem2, pos + lineBytes l) } : PT).filename) := by
            rw [fileLines_eq_of_files hfiles]
            simp only [bytesOf] at hinv
            simp only []
            omega
          have hrec := ih n
            (update_offset_file fs { pt with handle := some (rem2, pos + lineBytes l) }).fs
            (update_offset_file fs { pt with handle := some (rem2, pos + lineBytes l) }).pt
            (pos + lineBytes l)
            (by rw [hpt]; exact hrot)
            (by rw [hpt])
            (by rw [hpt]; exact hinv2)
            w hw2
          rw [hpt] at hrec
          rw [statIno_eq_of_files hfiles, fileLines_eq_of_files hfiles] at hrec
          exact hrec
      · rw [if_neg hpar] at hw
        simp only [List.nil_append] at hw
        have hrec := ih n fs { pt with handle := some (rem2, pos + lineBytes l) }
          (pos + lineBytes l) hrot rfl
          (by simp only [bytesOf] at hinv; simp only []; omega)
          w hw
        exact hrec

/-- Claim C9 witness: the amended statement applied to a paranoid,
unrotated drain of the batch scenario and to its first committed pair,
which carries the target inode and a position within the file. -/
theorem c9_witness :
    ((7 : Nat), (14 : Nat)).1 = statIno exBatchFS2 (str "audit.ldif") ∧
    ((7 : Nat), (14 : Nat)).2 ≤ bytesOf (fileLines exBatchFS2 (str "audit.ldif")) :=
  c9_amended_offset_validity exBatchLines (exBatchLines.length + 2) exBatchFS2
    { filename := str "audit.ldif", offset_file := str "off",
      offset_file_inode := 7, offset := 0, rotated_logfile := none,
      handle := some (exBatchLines, 0), paranoid := true, pretend := false }
    0 rfl rfl (by decide) (7, 14) (by decide)

/-- Claim C3 as amended: the rotated-predecessor search is the staged
first-identity-match search whose savelog stage admits base.0 only when
base.1.gz also exists and base.0 is NEWER by modification time; and
when rotation is suspected but no candidate matches, reading continues
at the persisted offset of the current file with no rotated file
set. -/
theorem c3_amended_candidates :
    (∀ (fs : FS) (filename : S) (ino : Nat),
      determine_rotated_logfile fs filename ino = amendedSearch fs filename ino) ∧
    (∀ (fs : FS) (filename offsetname : S) (paranoid pretend : Bool) (ino off : Nat),
      fs.offsetFile = some (ino, off) →
      ino ≠ statIno fs filename →
      determine_rotated_logfile fs filename ino = none →
      (pygtailInit fs filename offsetname paranoid pretend).offset = off ∧
      (pygtailInit fs filename offsetname paranoid pretend).rotated_logfile = none) := by
  constructor
  · intro fs filename ino
    unfold determine_rotated_logfile check_rotated_filename_candidates amendedSearch matchIn
    rw [List.find?_append, List.find?_append, List.find?_append]
    by_cases h1 : (fsExists fs (filename ++ str ".0") && fsExists fs (filename ++ str ".1.gz") &&
        decide (statMtime fs (filename ++ str ".1.gz") < statMtime fs (filename ++ str ".0")))
        = true <;>
    by_cases h2 : fsExists fs (filename ++ str ".1") = true <;>
    rcases hf0 : List.find? (fun c => fsExists fs c && decide (statIno fs c = ino))
        [filename ++ str ".0"] with _ | c0 <;>
    rcases hf1 : List.find? (fun c => fsExists fs c && decide (statIno fs c = ino))
        [filename ++ str ".1"] with _ | c1 <;>
    rcases hf3 : List.find? (fun c => fsExists fs c && decide (statIno fs c = ino))
        ((fs.files.filter (fun p => dashDatePat filename p.1)).map (fun p => p.1))
        with _ | c3 <;>
    simp [h1, h2, hf0, hf1, hf3]
  · intro fs filename offsetname paranoid pretend ino off hoff hne hdet
    simp [pygtailInit, hoff, hne, hdet]

/-- Claim C3 witness: the fallback conjunct applied to the scenario in
which log.0 is older than log.1.gz and nothing matches: reading resumes
at the persisted offset 7 with no rotated file. -/
theorem c3_witness :
    (pygtailInit exC3FS (str "log") (str "off") false true).offset = 7 ∧
    (pygtailInit exC3FS (str "log") (str "off") false true).rotated_logfile = none :=
  c3_amended_candidates.2 exC3FS (str "log") (str "off") false true 3 7 rfl
    (by decide) (by decide)

/-!
Noninterference of ignored attribute values: two related inputs drive
the parser through the same states, because an inert ignored attribute
line is never a continuation, never a comment, never a begin comment,
never carries the end marker, and its value is dropped by the ignored
branch.
-/

theorem head?_append_of_ne_nil {n : S} (m : S) (h : n ≠ []) :
    (n ++ m).head? = n.head? := by
  cases n with
  | nil => exact absurd rfl h
  | cons c r => rfl

theorem diff_head {n : S} (v : S) (h : n ≠ []) :
    (n ++ str ": " ++ v).head? = n.head? := by
  rw [List.append_assoc, head?_append_of_ne_nil _ h]

theorem beginMatch_none_of_head {l : S} (h : l.head? ≠ some '#') :
    beginMatch l = none := by
  cases l with
  | nil => rfl
  | cons c1 t =>
    cases t with
    | nil => rfl
    | cons c2 rest =>
      have hc : ¬ (c1 = '#' ∧ c2 = ' ') := by
        rintro ⟨h1, _⟩
        exact h (by simp [h1])
      simp [beginMatch, hc]

theorem splitColon_append {n : S} (t : S) (h : (':' : Char) ∉ n) :
    splitColon (n ++ ':' :: t) = some (n, t) := by
  induction n with
  | nil => simp [splitColon]
  | cons c r ih =>
    have hc : c ≠ ':' := fun he => h (by simp [he])
    have hr2 : (':' : Char) ∉ r := fun hm => h (List.mem_cons_of_mem c hm)
    simp [splitColon, hc, ih hr2]

theorem unfoldRest_rel (ig : List S) {r1 r2 : List S}
    (hr : List.Forall₂ (LinRel ig) r1 r2) :
    ∀ (acc1 acc2 : S),
      (OLinRel ig (unfoldRest r1 acc1).2.1 (unfoldRest r2 acc2).2.1 ∧
       List.Forall₂ (LinRel ig) (unfoldRest r1 acc1).2.2 (unfoldRest r2 acc2).2.2) ∧
      (acc1 = acc2 → (unfoldRest r1 acc1).1 = (unfoldRest r2 acc2).1) ∧
      (∀ (n w1 w2 : S), acc1 = n ++ str ": " ++ w1 → acc2 = n ++ str ": " ++ w2 →
        ∃ w1b w2b, (unfoldRest r1 acc1).1 = n ++ str ": " ++ w1b ∧
          (unfoldRest r2 acc2).1 = n ++ str ": " ++ w2b) := by
  induction hr with
  | nil =>
    intro acc1 acc2
    refine ⟨⟨trivial, List.Forall₂.nil⟩, fun h => h, ?_⟩
    intro n w1 w2 h1 h2
    exact ⟨w1, w2, h1, h2⟩
  | @cons a b t1 t2 hline htail ih =>
    intro acc1 acc2
    rcases hline with heq | hdiff
    · subst heq
      simp only [unfoldRest]
      by_cases hf : a.head? = some ' '
      · rw [if_pos hf, if_pos hf]
        refine ⟨(ih _ _).1, ?_, ?_⟩
        · intro he
          exact (ih (acc1 ++ a.drop 1) (acc2 ++ a.drop 1)).2.1 (by rw [he])
        · intro n w1 w2 h1 h2
          exact (ih _ _).2.2 n (w1 ++ a.drop 1) (w2 ++ a.drop 1)
            (by rw [h1, List.append_assoc]) (by rw [h2, List.append_assoc])
      · rw [if_neg hf, if_neg hf]
        exact ⟨⟨Or.inl rfl, htail⟩, fun h => h,
          fun n w1 w2 h1 h2 => ⟨w1, w2, h1, h2⟩⟩
    · obtain ⟨n, v1, v2, ha, hb, hprops, he1, he2⟩ := hdiff
      have hfa : a.head? ≠ some ' ' := by
        rw [ha, diff_head v1 hprops.2.1]
        exact hprops.2.2.2.1
      have hfb : b.head? ≠ some ' ' := by
        rw [hb, diff_head v2 hprops.2.1]
        exact hprops.2.2.2.1
      simp only [unfoldRest]
      rw [if_neg hfa, if_neg hfb]
      exact ⟨⟨Or.inr ⟨n, v1, v2, ha, hb, hprops, he1, he2⟩, htail⟩, fun h => h,
        fun n2 w1 w2 h1 h2 => ⟨w1, w2, h1, h2⟩⟩

theorem skipComments_rel (ig : List S) :
    ∀ (fuel : Nat) (u1 u2 : S) (cur1 cur2 : Option S) (rest1 rest2 : List S),
      OLinRel ig cur1 cur2 → List.Forall₂ (LinRel ig) rest1 rest2 →
      (u1 = u2 ∨ ∃ n w1 w2, NProps ig n ∧ u1 = n ++ str ": " ++ w1 ∧
        u2 = n ++ str ": " ++ w2) →
      (OLinRel ig (skipComments fuel u1 cur1 rest1).2.1
         (skipComments fuel u2 cur2 rest2).2.1 ∧
       List.Forall₂ (LinRel ig) (skipComments fuel u1 cur1 rest1).2.2
         (skipComments fuel u2 cur2 rest2).2.2) ∧
      ((skipComments fuel u1 cur1 rest1).1 = (skipComments fuel u2 cur2 rest2).1 ∨
       ∃ n w1 w2, NProps ig n ∧
         (skipComments fuel u1 cur1 rest1).1 = n ++ str ": " ++ w1 ∧
         (skipComments fuel u2 cur2 rest2).1 = n ++ str ": " ++ w2) := by
  intro fuel
  induction fuel with
  | zero =>
    intro u1 u2 cur1 cur2 rest1 rest2 hc hr hu
    exact ⟨⟨hc, hr⟩, hu⟩
  | succ m ih =>
    intro u1 u2 cur1 cur2 rest1 rest2 hc hr hu
    rcases hu with heq | ⟨n, w1, w2, hprops, h1, h2⟩
    · subst heq
      simp only [skipComments]
      by_cases hcom : u1.head? = some '#'
      · rw [if_pos hcom, if_pos hcom]
        rcases hU1 : unfoldLDIF cur1 rest1 with ⟨ua, ca, ra⟩
        rcases hU2 : unfoldLDIF cur2 rest2 with ⟨ub, cb, rb⟩
        have hrel := unfoldRest_rel ig hr (cur1.getD []) (cur2.getD [])
        have hU1b : unfoldRest rest1 (cur1.getD []) = (ua, ca, ra) := hU1
        have hU2b : unfoldRest rest2 (cur2.getD []) = (ub, cb, rb) := hU2
        rw [hU1b, hU2b] at hrel
        have hunew : ua = ub ∨ ∃ n w1 w2, NProps ig n ∧ ua = n ++ str ": " ++ w1 ∧
            ub = n ++ str ": " ++ w2 := by
          cases cur1 with
          | none =>
            cases cur2 with
            | none => exact Or.inl (hrel.2.1 rfl)
            | some b2 => exact absurd hc (by simp [OLinRel])
          | some a2 =>
            cases cur2 with
            | none => exact absurd hc (by simp [OLinRel])
            | some b2 =>
              have hline : LinRel ig a2 b2 := hc
              rcases hline with heq2 | hdiff2
              · exact Or.inl (hrel.2.1 (by rw [heq2]))
              · obtain ⟨n, v1, v2, ha, hb3, hprops, _, _⟩ := hdiff2
                obtain ⟨w1b, w2b, hw1, hw2⟩ := hrel.2.2 n v1 v2 (by simp [ha]) (by simp [hb3])
                exact Or.inr ⟨n, w1b, w2b, hprops, hw1, hw2⟩
        exact ih ua ub ca cb ra rb hrel.1.1 hrel.1.2 hunew
      · rw [if_neg hcom, if_neg hcom]
        exact ⟨⟨hc, hr⟩, Or.inl rfl⟩
    · have hu1 : u1.head? ≠ some '#' := by
        rw [h1, diff_head w1 hprops.2.1]
        exact hprops.2.2.1
      have hu2 : u2.head? ≠ some '#' := by
        rw [h2, diff_head w2 hprops.2.1]
        exact hprops.2.2.1
      simp only [skipComments]
      rw [if_neg hu1, if_neg hu2]
      exact ⟨⟨hc, hr⟩, Or.inr ⟨n, w1, w2, hprops, h1, h2⟩⟩

theorem shape_cons (n w : S) : n ++ str ": " ++ w = n ++ ':' :: ' ' :: w := by
  rw [List.append_assoc]
  rfl

theorem parseAttr_rel (ig : List S) {cur1 cur2 : S} {rest1 rest2 : List S}
    (hc : LinRel ig cur1 cur2) (hr : List.Forall₂ (LinRel ig) rest1 rest2) :
    TVRel ig (parseAttrTypeAndValue cur1 rest1).1 (parseAttrTypeAndValue cur2 rest2).1 ∧
    OLinRel ig (parseAttrTypeAndValue cur1 rest1).2.1
      (parseAttrTypeAndValue cur2 rest2).2.1 ∧
    List.Forall₂ (LinRel ig) (parseAttrTypeAndValue cur1 rest1).2.2
      (parseAttrTypeAndValue cur2 rest2).2.2 := by
  unfold parseAttrTypeAndValue
  rcases hU1 : unfoldLDIF (some cur1) rest1 with ⟨u1, c1, r1⟩
  rcases hU2 : unfoldLDIF (some cur2) rest2 with ⟨u2, c2, r2⟩
  have hrel := unfoldRest_rel ig hr cur1 cur2
  have hU1b : unfoldRest rest1 cur1 = (u1, c1, r1) := hU1
  have hU2b : unfoldRest rest2 cur2 = (u2, c2, r2) := hU2
  rw [hU1b, hU2b] at hrel
  have hlen : r1.length = r2.length := hrel.1.2.length_eq
  have hu : u1 = u2 ∨ ∃ n w1 w2, NProps ig n ∧ u1 = n ++ str ": " ++ w1 ∧
      u2 = n ++ str ": " ++ w2 := by
    rcases hc with heq | hdiff
    · exact Or.inl (hrel.2.1 heq)
    · obtain ⟨n, v1, v2, ha, hb, hprops, _, _⟩ := hdiff
      obtain ⟨w1b, w2b, hw1, hw2⟩ := hrel.2.2 n v1 v2 ha hb
      exact Or.inr ⟨n, w1b, w2b, hprops, hw1, hw2⟩
  have hskip := skipComments_rel ig (r1.length + 2) u1 u2 c1 c2 r1 r2
    hrel.1.1 hrel.1.2 hu
  rcases hS1 : skipComments (r1.length + 2) u1 c1 r1 with ⟨su1, sc1, sr1⟩
  rcases hS2 : skipComments (r2.length + 2) u2 c2 r2 with ⟨su2, sc2, sr2⟩
  rw [hS1, hlen, hS2] at hskip
  dsimp only at hskip
  simp only [hU1, hU2, hS1, hS2]
  rcases hskip.2 with hueq | ⟨n, w1, w2, hprops, hw1, hw2⟩
  · rw [← hueq]
    split
    · exact ⟨Or.inl rfl, hskip.1.1, hskip.1.2⟩
    · split
      · exact ⟨Or.inl rfl, hskip.1.1, hskip.1.2⟩
      · split
        · exact ⟨Or.inl rfl, hskip.1.1, hskip.1.2⟩
        · exact ⟨Or.inl rfl, hskip.1.1, hskip.1.2⟩
  · have hcolon : (':' : Char) ∉ n := hprops.2.2.2.2.1
    have hne1 : su1 ≠ [] := by
      rw [hw1]
      intro habs
      rcases List.append_eq_nil.mp habs with ⟨habs2, _⟩
      rcases List.append_eq_nil.mp habs2 with ⟨habs3, _⟩
      exact hprops.2.1 habs3
    have hne2 : su2 ≠ [] := by
      rw [hw2]
      intro habs
      rcases List.append_eq_nil.mp habs with ⟨habs2, _⟩
      rcases List.append_eq_nil.mp habs2 with ⟨habs3, _⟩
      exact hprops.2.1 habs3
    have hsp1 : splitColon su1 = some (n, ' ' :: w1) := by
      rw [hw1, shape_cons, splitColon_append _ hcolon]
    have hsp2 : splitColon su2 = some (n, ' ' :: w2) := by
      rw [hw2, shape_cons, splitColon_append _ hcolon]
    rw [if_neg hne1, if_neg hne2]
    simp only [hsp1, hsp2, List.drop_succ_cons, List.drop_zero]
    exact ⟨Or.inr ⟨n, rfl, rfl, hprops⟩, hskip.1.1, hskip.1.2⟩

theorem parseBranch_tvrel (ig : List S) {tv1 tv2 : Option S × Option S}
    (h : TVRel ig tv1 tv2) (dnL ctL : Option S) (act : S) (entry : Entry) :
    parseBranch ig tv1 dnL ctL act entry = parseBranch ig tv2 dnL ctL act entry := by
  rcases h with heq | ⟨n, h1, h2, hprops⟩
  · rw [heq]
  · rcases tv1 with ⟨t1, v1⟩
    rcases tv2 with ⟨t2, v2⟩
    simp only at h1 h2
    subst h1
    subst h2
    obtain ⟨hig, _, _, _, _, hdn, hmod, hct⟩ := hprops
    simp only [parseBranch]
    rw [if_neg hdn, if_neg hdn, if_neg hmod, if_neg hmod, if_neg hct, if_neg hct]
    cases v1 <;> cases v2 <;> simp [hig]

theorem endCheck_rel {ig : List S} {c1 c2 : Option S} (h : OLinRel ig c1 c2)
    (dnL : Option S) (e : Entry) :
    emitTest dnL e c1 = emitTest dnL e c2 := by
  match c1, c2, h with
  | none, none, _ => rfl
  | none, some b, h2 => exact h2.elim
  | some a, none, h2 => exact h2.elim
  | some a, some b, h2 =>
    rcases (h2 : LinRel ig a b) with heq | hdiff
    · rw [heq]
    · obtain ⟨n, v1, v2, _, _, _, he1, he2⟩ := hdiff
      simp [emitTest, he1, he2]

theorem beginMatch_rel {ig : List S} {l1 l2 : S} (h : LinRel ig l1 l2) :
    beginMatch l1 = beginMatch l2 := by
  rcases h with heq | hdiff
  · rw [heq]
  · obtain ⟨n, v1, v2, ha, hb, hprops, _, _⟩ := hdiff
    have h1 : beginMatch l1 = none := beginMatch_none_of_head
      (by rw [ha, diff_head v1 hprops.2.1]; exact hprops.2.2.1)
    have h2 : beginMatch l2 = none := beginMatch_none_of_head
      (by rw [hb, diff_head v2 hprops.2.1]; exact hprops.2.2.1)
    rw [h1, h2]

theorem parseLoop_rel (ig : List S) :
    ∀ (fuel : Nat) (cur1 cur2 : Option S) (rest1 rest2 : List S)
      (dnL ctL : Option S) (act : S) (entry : Entry) (acc : List (S × Entry)),
      OLinRel ig cur1 cur2 → List.Forall₂ (LinRel ig) rest1 rest2 →
      parseLoop ig fuel cur1 rest1 dnL ctL act entry acc =
        parseLoop ig fuel cur2 rest2 dnL ctL act entry acc := by
  intro fuel
  induction fuel with
  | zero => intros; rfl
  | succ m ih =>
    intro cur1 cur2 rest1 rest2 dnL ctL act entry acc hc hr
    cases cur1 with
    | none =>
      cases cur2 with
      | none => rfl
      | some b => exact absurd hc (by simp [OLinRel])
    | some a =>
      cases cur2 with
      | none => exact absurd hc (by simp [OLinRel])
      | some b =>
        have hline : LinRel ig a b := hc
        simp only [parseLoop]
        rw [beginMatch_rel hline]
        rcases hq1 : parseAttrTypeAndValue a rest1 with ⟨tv1, c1x, r1x⟩
        rcases hq2 : parseAttrTypeAndValue b rest2 with ⟨tv2, c2x, r2x⟩
        have hrel := parseAttr_rel ig hline hr
        rw [hq1, hq2] at hrel
        dsimp only at hrel
        simp only [hq1, hq2]
        rw [parseBranch_tvrel ig hrel.1]
        rcases hb2 : parseBranch ig tv2 dnL ctL act
            (match beginMatch b with
             | some a2 => { entry with actor := some a2 }
             | none => entry) with _ | ⟨dn2, ct2, act2, entry2⟩
        · rfl
        · dsimp only
          have hend : emitTest dn2 entry2 c1x = emitTest dn2 entry2 c2x :=
            endCheck_rel hrel.2.1 dn2 entry2
          rw [hend]
          by_cases he : emitTest dn2 entry2 c2x = true
          · rw [if_pos he, if_pos he]
            cases dn2 with
            | some d => exact ih c1x c2x r1x r2x none none act2 {} _ hrel.2.1 hrel.2.2
            | none => exact ih c1x c2x r1x r2x none ct2 act2 entry2 acc hrel.2.1 hrel.2.2
          · rw [if_neg he, if_neg he]
            exact ih c1x c2x r1x r2x dn2 ct2 act2 entry2 acc hrel.2.1 hrel.2.2

/-- Claim C5 as amended: two inputs differing only in the values of
inert ignored attribute lines, none of which carries the record
terminator marker, parse to the same records and hence produce the same
events; no ignored value influences the run. -/
theorem c5_amended_noninterference :
    ∀ (ig l1 l2 : List S), List.Forall₂ (LinRel ig) l1 l2 →
      mzParse l1 ig = mzParse l2 ig ∧
      (mzParse l1 ig).map (fun recs => recs.map (fun r => createLogRecord r.2)) =
        (mzParse l2 ig).map (fun recs => recs.map (fun r => createLogRecord r.2)) := by
  intro ig l1 l2 h
  have hlen : l1.length = l2.length := h.length_eq
  have hmain : mzParse l1 ig = mzParse l2 ig := by
    unfold mzParse
    rw [hlen]
    cases h with
    | nil => rfl
    | @cons a b t1 t2 hline htail =>
      exact parseLoop_rel ig ((b :: t2).length + 1) (some a) (some b) t1 t2
        none none [] {} [] hline htail
  exact ⟨hmain, by rw [hmain]⟩

/-- Claim C5 witness: the amended statement applied to two concrete
inputs differing only in a benign userPassword value: the parses
agree. -/
theorem c5_witness :
    mzParse exC5LinesA ignoreDefault = mzParse exC5LinesC ignoreDefault := by
  refine (c5_amended_noninterference ignoreDefault exC5LinesA exC5LinesC ?_).1
  refine List.Forall₂.cons (Or.inl rfl) ?_
  refine List.Forall₂.cons (Or.inl rfl) ?_
  refine List.Forall₂.cons (Or.inl rfl) ?_
  refine List.Forall₂.cons (Or.inr ?_) ?_
  · refine ⟨str "userPassword", str "secret1", str "secret2longer", rfl, rfl,
      ⟨by decide, by decide, by decide, by decide, by decide, by decide,
       by decide, by decide⟩, by decide, by decide⟩
  refine List.Forall₂.cons (Or.inl rfl) ?_
  exact List.Forall₂.cons (Or.inl rfl) List.Forall₂.nil

end Ldap
